import Mathlib

/-!
# go-http-retry: the retrying transport and its default retry policy

A shallow embedding of `resilient_transport.go`, `retry_policy.go` and
`backoff_policy.go`.

Modelling conventions.

* A Go `error` value is `Option GoError` (`none` is `nil`).  A `GoError` records
  whether its dynamic type implements `net.Error` and, if so, what `Timeout()`
  and `Temporary()` answer.
* A `*http.Response` is `Option Response` (`none` is `nil`).
* An `io.ReadCloser` is described by the bytes it still has to deliver and by
  the error, if any, with which reading ends instead of `io.EOF`.
* Go `int` is the 64-bit two's complement integer: values are `Int`s in
  `[-2^63, 2^63)` and `try++` wraps.  A `time.Duration` is an `int64` count of
  nanoseconds and its products wrap likewise.
* The callbacks of a `ResilientTransport` (`ShouldRetry`, `Backoff`, `OnRetry`)
  and the underlying `http.Transport` are Go function values that may have
  effects.  They are embedded as functions over an explicit world state `σ`.
  A `nil` callback is `none`.  The callbacks observe the request; only the
  underlying `RoundTrip` consumes the request body.
* `tries` is instrumented with a chronological trace of the calls it makes.
* The `for` loop of `tries` need not terminate, so it is run with fuel: one
  unit of fuel per iteration of the loop.
-/

namespace Retry

/-! ## Data model -/

/-- Answers of the two methods of the `net.Error` interface. -/
structure NetError where
  Timeout : Bool
  Temporary : Bool
deriving DecidableEq, Repr

/-- A non-nil Go `error`: either a value whose dynamic type does not implement
`net.Error`, or one that does. -/
inductive GoError where
  | plain (msg : String)
  | net (msg : String) (e : NetError)
deriving DecidableEq, Repr

/-- The type assertion `err.(net.Error)`: `some` exactly when it succeeds. -/
def asNetError : Option GoError → Option NetError
  | some (GoError.net _ e) => some e
  | _ => none

/-- An `io.ReadCloser`: the bytes still to be read, and the error that ends the
reading (`none` means the reader ends with `io.EOF`). -/
structure ReadCloser where
  data : List Nat
  err : Option GoError
deriving DecidableEq, Repr

/-- `ioutil.ReadAll r`: everything up to EOF or the first error. -/
def ReadAll (r : ReadCloser) : List Nat × Option GoError :=
  (r.data, r.err)

/-- The reader once `n` of its bytes have been consumed. -/
def ReadCloser.consume (r : ReadCloser) (n : Nat) : ReadCloser :=
  { r with data := r.data.drop n }

/-- `ioutil.NopCloser(bytes.NewBuffer(orig))`. -/
def newBufferReader (orig : List Nat) : ReadCloser :=
  { data := orig, err := none }

/-- The fields of `http.Response` the package looks at. -/
structure Response where
  StatusCode : Int
  Body : ReadCloser
deriving DecidableEq, Repr

/-- The fields of `http.Request` the package looks at. -/
structure Request where
  Method : String
  URL : String
  Body : Option ReadCloser
deriving DecidableEq, Repr

/-! ## retry_policy.go -/

/-- `DefaultRetryPolicy(req, res, err)`. -/
def DefaultRetryPolicy (_req : Request) (res : Option Response) (err : Option GoError) : Bool :=
  let retry := false
  -- retry if there is a temporary network error.
  let retry :=
    match asNetError err with
    | some neterr => if neterr.Temporary then true else retry
    | none => retry
  -- retry if we get a 5xx series error.
  let retry :=
    match res with
    | some r => if r.StatusCode ≥ 500 ∧ r.StatusCode < 600 then true else retry
    | none => retry
  retry

/-- The policy as a `RetryPolicyFunc` value: it has no effect on the world. -/
def DefaultRetryPolicyFunc {σ : Type} :
    Request → Option Response → Option GoError → σ → Bool × σ :=
  fun req res err w => (DefaultRetryPolicy req res err, w)

/-! ## resilient_transport.go -/

/-- Least value of a Go `int`. -/
def minInt : Int := -(2 ^ 63)

/-- Greatest value of a Go `int`. -/
def maxInt : Int := 2 ^ 63 - 1

/-- Reduction of a mathematical integer to the Go `int` it is stored as. -/
def wrapInt (i : Int) : Int :=
  (i + 2 ^ 63) % 2 ^ 64 - 2 ^ 63

/-- `type RetryPolicyFunc func(*http.Request, *http.Response, error) bool`. -/
abbrev RetryPolicyFunc (σ : Type) :=
  Request → Option Response → Option GoError → σ → Bool × σ

/-- `type BackoffPolicyFunc func(try int) time.Duration` (nanoseconds). -/
abbrev BackoffPolicyFunc (σ : Type) :=
  Int → σ → Int × σ

/-- `type OnRetryFunc func(req *http.Request, res *http.Response, err error, try int)`. -/
abbrev OnRetryFunc (σ : Type) :=
  Request → Option Response → Option GoError → Int → σ → σ

/-- `type DeadlineFunc func() time.Time` (an absolute time read off the world). -/
abbrev DeadlineFunc (σ : Type) :=
  σ → Int

/-- What one call of the underlying `RoundTrip` produces: the response, the
error, how many bytes of the request body it read, and the world it leaves. -/
structure RoundTripResult (σ : Type) where
  res : Option Response
  err : Option GoError
  consumed : Nat
  world : σ

/-- The underlying `*http.Transport`, through its `RoundTrip` method. -/
abbrev RoundTripper (σ : Type) :=
  Request → σ → RoundTripResult σ

/-- The struct `ResilientTransport`.  `MaxTries` is a Go `int`. -/
structure ResilientTransport (σ : Type) where
  Deadline : Option (DeadlineFunc σ)
  DialTimeout : Int
  MaxTries : Int
  ShouldRetry : Option (RetryPolicyFunc σ)
  Backoff : Option (BackoffPolicyFunc σ)
  OnRetry : Option (OnRetryFunc σ)
  transport : RoundTripper σ
  MaxTries_range : minInt ≤ MaxTries ∧ MaxTries ≤ maxInt

/-- The calls `tries` makes, as recorded in its trace.  The `try` of a
`roundTrip` event is the value of the loop counter during the call; it is not
an argument of the call. -/
inductive Event where
  | readAll (body : ReadCloser)
  | roundTrip (try_ : Int) (req : Request) (res : Option Response) (err : Option GoError)
  | shouldRetry (req : Request) (res : Option Response) (err : Option GoError) (verdict : Bool)
  | onRetry (req : Request) (res : Option Response) (err : Option GoError) (try_ : Int)
  | closeResponseBody (res : Response)
  | sleep (d : Int)
  | closeRequestBody (body : ReadCloser)
deriving DecidableEq, Repr

/-- Whether the event is a call of the underlying `RoundTrip`. -/
def Event.isRoundTrip : Event → Bool
  | Event.roundTrip _ _ _ _ => true
  | _ => false

/-- Whether the event belongs to the retry logic: a call of `ShouldRetry`,
`OnRetry` or `Backoff` (the sleep), or the closing of a response body. -/
def Event.isRetryLogic : Event → Bool
  | Event.shouldRetry _ _ _ _ => true
  | Event.onRetry _ _ _ _ => true
  | Event.closeResponseBody _ => true
  | Event.sleep _ => true
  | _ => false

/-- The state of one run of `tries`: the world, the request as it stands, the
loop counter `try` and the trace so far. -/
structure Machine (σ : Type) where
  world : σ
  req : Request
  try_ : Int
  trace : List Event

/-- Append an event to the trace. -/
def Machine.emit {σ : Type} (m : Machine σ) (e : Event) : Machine σ :=
  { m with trace := m.trace ++ [e] }

/-- Number of calls of the underlying `RoundTrip` recorded so far. -/
def attempts (tr : List Event) : Nat :=
  tr.countP Event.isRoundTrip

/-- The `(res, err)` of the last call of the underlying `RoundTrip` in a trace. -/
def lastOutcome : List Event → Option (Option Response × Option GoError)
  | [] => none
  | Event.roundTrip _ _ res err :: rest =>
    match lastOutcome rest with
    | some o => some o
    | none => some (res, err)
  | _ :: rest => lastOutcome rest

/-- Lines 52-54: install a fresh reader over `orig` when the request has a body. -/
def installBody (orig : List Nat) (req : Request) : Request :=
  match req.Body with
  | some _ => { req with Body := some (newBufferReader orig) }
  | none => req

/-- The request after the underlying transport read `n` bytes of its body. -/
def Request.consume (req : Request) (n : Nat) : Request :=
  { req with Body := req.Body.map (fun b => b.consume n) }

/-- Lines 52-56: install the body and call `t.transport.RoundTrip(req)`. -/
def attempt {σ : Type} (t : ResilientTransport σ) (orig : List Nat) (m : Machine σ) :
    RoundTripResult σ × Machine σ :=
  let req := installBody orig m.req
  let r := t.transport req m.world
  (r, { world := r.world, req := req.consume r.consumed, try_ := m.try_,
        trace := m.trace ++ [Event.roundTrip m.try_ req r.res r.err] })

/-- The call `t.ShouldRetry(req, res, err)` of line 60 with a non-nil policy. -/
def consult {σ : Type} (f : RetryPolicyFunc σ) (r : RoundTripResult σ) (m : Machine σ) :
    Bool × Machine σ :=
  let v := f m.req r.res r.err m.world
  (v.1, { m with world := v.2, trace := m.trace ++ [Event.shouldRetry m.req r.res r.err v.1] })

/-- Lines 65-68: invoke the on retry callback, if any. -/
def notify {σ : Type} (t : ResilientTransport σ) (r : RoundTripResult σ) (m : Machine σ) :
    Machine σ :=
  match t.OnRetry with
  | some onRetry =>
    { m with world := onRetry m.req r.res r.err m.try_ m.world,
             trace := m.trace ++ [Event.onRetry m.req r.res r.err m.try_] }
  | none => m

/-- Lines 70-74: close the response reader, if there is a response. -/
def release {σ : Type} (r : RoundTripResult σ) (m : Machine σ) : Machine σ :=
  match r.res with
  | some res => m.emit (Event.closeResponseBody res)
  | none => m

/-- Lines 75-77: sleep for `t.Backoff(try)`, if there is a backoff policy. -/
def backoff {σ : Type} (t : ResilientTransport σ) (m : Machine σ) : Machine σ :=
  match t.Backoff with
  | some f =>
    let d := f m.try_ m.world
    { m with world := d.2, trace := m.trace ++ [Event.sleep d.1] }
  | none => m

/-- Line 79: `try++`. -/
def increment {σ : Type} (m : Machine σ) : Machine σ :=
  { m with try_ := wrapInt (m.try_ + 1) }

/-- Lines 64-79: what the loop body does once a retry is decided. -/
def retry {σ : Type} (t : ResilientTransport σ) (r : RoundTripResult σ) (m : Machine σ) :
    Machine σ :=
  increment (backoff t (release r (notify t r m)))

/-- How one iteration of the `for` loop ends. -/
inductive Step (σ : Type) where
  | next (m : Machine σ)
  | ret (res : Option Response) (err : Option GoError) (m : Machine σ)
  | panics (m : Machine σ)

/-- One iteration of the `for` loop (lines 49-79).  Calling a nil `ShouldRetry`
panics; `||` does not evaluate it when `try == t.MaxTries`. -/
def iteration {σ : Type} (t : ResilientTransport σ) (orig : List Nat) (m : Machine σ) :
    Step σ :=
  let a := attempt t orig m
  if a.2.try_ = t.MaxTries then Step.ret a.1.res a.1.err a.2
  else
    match t.ShouldRetry with
    | none => Step.panics a.2
    | some f =>
      let c := consult f a.1 a.2
      if !c.1 then Step.ret a.1.res a.1.err c.2
      else Step.next (retry t a.1 c.2)

/-- How a run of `tries` stands: it returned `(res, err)`, it panicked, or it is
still in the loop when the fuel is spent. -/
inductive Exec (σ : Type) where
  | returned (res : Option Response) (err : Option GoError) (m : Machine σ)
  | panicked (m : Machine σ)
  | running (m : Machine σ)

/-- The machine of a run. -/
def Exec.machine {σ : Type} : Exec σ → Machine σ
  | Exec.returned _ _ m => m
  | Exec.panicked m => m
  | Exec.running m => m

/-- The trace of a run. -/
def Exec.trace {σ : Type} (e : Exec σ) : List Event :=
  e.machine.trace

/-- The `for` loop of lines 48-80, one unit of fuel per iteration. -/
def loop {σ : Type} (t : ResilientTransport σ) (orig : List Nat) :
    Nat → Machine σ → Exec σ
  | 0, m => Exec.running m
  | fuel + 1, m =>
    match iteration t orig m with
    | Step.next m1 => loop t orig fuel m1
    | Step.ret res err m1 => Exec.returned res err m1
    | Step.panics m1 => Exec.panicked m1

/-- The deferred `req.Body.Close()` of line 45, run when `tries` returns or
panics; `body` is the reader the request had when the `defer` was executed. -/
def runDeferred {σ : Type} (body : ReadCloser) : Exec σ → Exec σ
  | Exec.returned res err m => Exec.returned res err (m.emit (Event.closeRequestBody body))
  | Exec.panicked m => Exec.panicked (m.emit (Event.closeRequestBody body))
  | Exec.running m => Exec.running m

/-- The machine with which the loop is entered (lines 33-46): `try := 1`, and
a request body, if any, has been read to its end. -/
def start {σ : Type} (req : Request) (w : σ) : Machine σ :=
  match req.Body with
  | some body =>
    { world := w, req := { req with Body := some (body.consume body.data.length) },
      try_ := 1, trace := [Event.readAll body] }
  | none => { world := w, req := req, try_ := 1, trace := [] }

/-- The buffer `orig` of lines 35-41: the bytes read off the body, `nil` without a body. -/
def origOf (req : Request) : List Nat :=
  match req.Body with
  | some body => (ReadAll body).1
  | none => []

/-- `func (t *ResilientTransport) tries(req *http.Request) (*http.Response, error)`,
started in world `w` and run for at most `fuel` iterations of its loop. -/
def tries {σ : Type} (t : ResilientTransport σ) (fuel : Nat) (req : Request) (w : σ) :
    Exec σ :=
  match req.Body with
  | some body =>
    match (ReadAll body).2 with
    | some e => Exec.returned none (some e) (start req w)
    | none => runDeferred body (loop t (origOf req) fuel (start req w))
  | none => loop t (origOf req) fuel (start req w)

/-- `RoundTrip` implements the `http.RoundTripper` interface. -/
def ResilientTransport.RoundTrip {σ : Type} (t : ResilientTransport σ) (fuel : Nat)
    (req : Request) (w : σ) : Exec σ :=
  tries t fuel req w

/-! ## Vocabulary for statements about runs -/

/-- The request has no body, or its body reads to the end without error. -/
def bufferingSucceeds (req : Request) : Prop :=
  match req.Body with
  | some body => (ReadAll body).2 = none
  | none => True

instance (req : Request) : Decidable (bufferingSucceeds req) := by
  unfold bufferingSucceeds
  split <;> infer_instance

/-- The outcome `(res, err)` of the attempt that starts from machine `m`. -/
def outcomeAt {σ : Type} (t : ResilientTransport σ) (orig : List Nat) (m : Machine σ) :
    Option Response × Option GoError :=
  ((attempt t orig m).1.res, (attempt t orig m).1.err)

/-- What the policy `f` answers on the outcome of the attempt that starts from `m`. -/
def verdictAt {σ : Type} (t : ResilientTransport σ) (f : RetryPolicyFunc σ) (orig : List Nat)
    (m : Machine σ) : Bool :=
  (consult f (attempt t orig m).1 (attempt t orig m).2).1

/-- The machine at the top of the next iteration when the attempt that starts
from `m` is followed by a retry decided by `f` (lines 52-79 through `try++`). -/
def retryPath {σ : Type} (t : ResilientTransport σ) (f : RetryPolicyFunc σ) (orig : List Nat)
    (m : Machine σ) : Machine σ :=
  retry t (attempt t orig m).1 (consult f (attempt t orig m).1 (attempt t orig m).2).2

/-- The machine from which attempt number `i + 1` starts, when each of the
first `i` attempts was followed by a retry. -/
def startOf {σ : Type} (t : ResilientTransport σ) (f : RetryPolicyFunc σ) (orig : List Nat)
    (m0 : Machine σ) : Nat → Machine σ
  | 0 => m0
  | i + 1 => retryPath t f orig (startOf t f orig m0 i)

/-! ## Sample configurations -/

/-- A server that answers 500 to the first `k` requests it receives and 200 to
the later ones; it reads the whole request body.  The world counts the requests
received. -/
def flakyServer (k : Nat) : RoundTripper Nat :=
  fun req n =>
    { res := some { StatusCode := if n < k then 500 else 200,
                    Body := newBufferReader [112, 111, 110, 103] },
      err := none,
      consumed := (req.Body.map (fun b => b.data.length)).getD 0,
      world := n + 1 }

/-- A transport in the manner of `retryingTransport` of client.go, in front of
`flakyServer k`, with a linear delay and an observer that leaves the world alone. -/
def sampleTransport (maxTries : Int) (h : minInt ≤ maxTries ∧ maxTries ≤ maxInt) (k : Nat) :
    ResilientTransport Nat :=
  { Deadline := none
    DialTimeout := 10000000000
    MaxTries := maxTries
    ShouldRetry := some DefaultRetryPolicyFunc
    Backoff := some (fun n w => (n * 100000000, w))
    OnRetry := some (fun _ _ _ _ w => w)
    transport := flakyServer k
    MaxTries_range := h }

/-- A `POST` with the body `ping`. -/
def samplePost : Request :=
  { Method := "POST", URL := "http://example.test/",
    Body := some (newBufferReader [112, 105, 110, 103]) }

/-- A `POST` whose body fails after two bytes. -/
def brokenPost : Request :=
  { Method := "POST", URL := "http://example.test/",
    Body := some { data := [112, 105], err := some (GoError.plain "unexpected EOF") } }

/-! ## backoff_policy.go -/

/-- `time.Millisecond`, in nanoseconds. -/
def Millisecond : Int := 1000000

/-- `time.Duration(math.Exp2(float64(try)))`.  On an integer argument
`math.Exp2` is the exact power of two: below 1 for a negative `try`, which the
conversion truncates to 0, and an `int64` up to `try = 62`.  From `try = 63` on
the value does not fit an `int64` and Go leaves the result of the conversion to
the implementation: it is the parameter `unrepresentable`. -/
def exp2Duration (unrepresentable : Int) (try_ : Int) : Int :=
  if try_ < 0 then 0
  else if try_ ≤ 62 then 2 ^ try_.toNat
  else unrepresentable

/-- `ExponentialBackoff(try)`, in nanoseconds: the product is an `int64`. -/
def ExponentialBackoff (unrepresentable : Int) (try_ : Int) : Int :=
  wrapInt (100 * Millisecond * exp2Duration unrepresentable try_)

/-- `LinearBackoff(try)`, in nanoseconds: `try*100` is an `int`, the product an `int64`. -/
def LinearBackoff (try_ : Int) : Int :=
  wrapInt (wrapInt (try_ * 100) * Millisecond)

/-- A backoff function of the attempt number as a `BackoffPolicyFunc` value: it
has no effect on the world. -/
def pureBackoff {σ : Type} (b : Int → Int) : BackoffPolicyFunc σ :=
  fun try_ w => (b try_, w)

/-! ## Reading a trace -/

/-- The calls of the underlying `RoundTrip` in a trace, in order: the value of
`try` during the call, and the `(res, err)` it returned. -/
def outcomes : List Event → List (Int × Option Response × Option GoError)
  | [] => []
  | Event.roundTrip k _ res err :: rest => (k, res, err) :: outcomes rest
  | _ :: rest => outcomes rest

/-- The calls of `ShouldRetry` in a trace, in order: the `(res, err)` passed. -/
def consulted : List Event → List (Option Response × Option GoError)
  | [] => []
  | Event.shouldRetry _ res err _ :: rest => (res, err) :: consulted rest
  | _ :: rest => consulted rest

/-- The calls of `OnRetry` in a trace, in order: the `(res, err, try)` passed. -/
def observed : List Event → List (Option Response × Option GoError × Int)
  | [] => []
  | Event.onRetry _ res err k :: rest => (res, err, k) :: observed rest
  | _ :: rest => observed rest

/-- The responses whose body is closed in a trace, in order. -/
def closed : List Event → List Response
  | [] => []
  | Event.closeResponseBody res :: rest => res :: closed rest
  | _ :: rest => closed rest

/-- The sleeps of a trace, in order. -/
def sleeps : List Event → List Int
  | [] => []
  | Event.sleep d :: rest => d :: sleeps rest
  | _ :: rest => sleeps rest

/-- The requests handed to `ShouldRetry` and `OnRetry` in a trace. -/
def requestsShown : List Event → List Request
  | [] => []
  | Event.shouldRetry rq _ _ _ :: rest => rq :: requestsShown rest
  | Event.onRetry rq _ _ _ :: rest => rq :: requestsShown rest
  | _ :: rest => requestsShown rest

/-- Two values of the same `*http.Request`: they differ at most in how far the
body reader has been read. -/
def sameRequest (a b : Request) : Prop :=
  a.Method = b.Method ∧ a.URL = b.URL ∧ a.Body.isSome = b.Body.isSome

/-- What the caller gets from a run: `some (res, err)` when `tries` returned. -/
def Exec.result {σ : Type} : Exec σ → Option (Option Response × Option GoError)
  | Exec.returned res err _ => some (res, err)
  | _ => none

/-- Whether the run is over (`tries` returned or panicked). -/
def Exec.finished {σ : Type} : Exec σ → Bool
  | Exec.running _ => false
  | _ => true

/-! ## More sample configurations -/

/-- A server no attempt on which gets an answer in time: every `RoundTrip` ends
in a timeout error that is temporary, as those of package `net` are. -/
def timeoutServer : RoundTripper Nat :=
  fun _ n =>
    { res := none,
      err := some (GoError.net "i/o timeout" { Timeout := true, Temporary := true }),
      consumed := 0,
      world := n + 1 }

/-- The transport of `TestClient_RequestTimeoutFail`, in front of `timeoutServer`. -/
def timeoutTransport : ResilientTransport Nat :=
  { Deadline := none
    DialTimeout := 10000000000
    MaxTries := 3
    ShouldRetry := some DefaultRetryPolicyFunc
    Backoff := some (pureBackoff (ExponentialBackoff minInt))
    OnRetry := none
    transport := timeoutServer
    MaxTries_range := by decide }

/-- A transport without a retry policy, in front of `flakyServer k`. -/
def policylessTransport (maxTries : Int) (h : minInt ≤ maxTries ∧ maxTries ≤ maxInt) (k : Nat) :
    ResilientTransport Nat :=
  { Deadline := none
    DialTimeout := 10000000000
    MaxTries := maxTries
    ShouldRetry := none
    Backoff := none
    OnRetry := none
    transport := flakyServer k
    MaxTries_range := h }

/-- A policy that asks for a retry whatever the outcome. -/
def alwaysRetry {σ : Type} : RetryPolicyFunc σ :=
  fun _ _ _ w => (true, w)

/-- A transport that always asks for a retry, in front of `flakyServer 0`. -/
def insistentTransport (maxTries : Int) (h : minInt ≤ maxTries ∧ maxTries ≤ maxInt) :
    ResilientTransport Nat :=
  { Deadline := none
    DialTimeout := 10000000000
    MaxTries := maxTries
    ShouldRetry := some alwaysRetry
    Backoff := none
    OnRetry := none
    transport := flakyServer 0
    MaxTries_range := h }

/-- An underlying transport over a world with a second component it neither
reads nor writes. -/
def liftServer (s : RoundTripper Nat) : RoundTripper (Nat × Nat) :=
  fun req w =>
    { res := (s req w.1).res, err := (s req w.1).err, consumed := (s req w.1).consumed,
      world := ((s req w.1).world, w.2) }

/-- A transport in front of `flakyServer k` whose observer counts its calls and
whose backoff policy counts the nanoseconds slept, both in the second
component of the world. -/
def watchedTransport (maxTries : Int) (h : minInt ≤ maxTries ∧ maxTries ≤ maxInt) (k : Nat) :
    ResilientTransport (Nat × Nat) :=
  { Deadline := none
    DialTimeout := 10000000000
    MaxTries := maxTries
    ShouldRetry := some DefaultRetryPolicyFunc
    Backoff := some (fun n w => (LinearBackoff n, (w.1, w.2 + (LinearBackoff n).toNat)))
    OnRetry := some (fun _ _ _ _ w => (w.1, w.2 + 1))
    transport := liftServer (flakyServer k)
    MaxTries_range := h }

/-- The events one iteration appends to the trace when the attempt that starts
from `m` is followed by a retry decided by `f`. -/
def retryEvents {σ : Type} (t : ResilientTransport σ) (f : RetryPolicyFunc σ) (orig : List Nat)
    (m : Machine σ) : List Event :=
  let a := attempt t orig m
  let c := consult f a.1 a.2
  [Event.roundTrip m.try_ (installBody orig m.req) a.1.res a.1.err,
    Event.shouldRetry a.2.req a.1.res a.1.err c.1] ++
  (match t.OnRetry with
    | some _ => [Event.onRetry a.2.req a.1.res a.1.err m.try_]
    | none => []) ++
  (match a.1.res with
    | some res => [Event.closeResponseBody res]
    | none => []) ++
  (match t.Backoff with
    | some b => [Event.sleep (b m.try_ (notify t a.1 c.2).world).1]
    | none => [])

/-- The deferred call as events: the request body is closed if there is one. -/
def deferredEvents (req : Request) : List Event :=
  match req.Body with
  | some body => [Event.closeRequestBody body]
  | none => []

/-! ## The order of events, after the specification -/

/-- Where a logical request stands between two events. -/
inductive Stage where
  | entered
  | ready
  | attempted (try_ : Int) (res : Option Response) (err : Option GoError)
  | retrying (try_ : Int) (res : Option Response) (err : Option GoError)
  | closing (res : Response)
  | released
  | stopped
  | over
deriving DecidableEq, Repr

/-- The stage once the response body of a retried attempt is released: the
sleep is due if a backoff policy is configured, else the next attempt is. -/
def Stage.afterRelease (hasBackoff : Bool) : Stage :=
  if hasBackoff then Stage.released else Stage.ready

/-- The stage once the observer of a retried attempt has run: the body of the
response is to be closed if a response was obtained. -/
def Stage.afterObserver (hasBackoff : Bool) (res : Option Response) : Stage :=
  match res with
  | some r => Stage.closing r
  | none => Stage.afterRelease hasBackoff

/-- The stage once a retry is decided: the observer is due if one is configured. -/
def Stage.afterVerdict (hasObserver hasBackoff : Bool) (try_ : Int) (res : Option Response)
    (err : Option GoError) : Stage :=
  if hasObserver then Stage.retrying try_ res err else Stage.afterObserver hasBackoff res

/-- The order of steps 1-7 of the algorithm of section
4.1 of the specification.  The event `e` is allowed at stage `s` exactly when the result is `some`;
the result is the stage after `e`. -/
def advance (hasObserver hasBackoff : Bool) (s : Stage) (e : Event) : Option Stage :=
  match s, e with
  | Stage.entered, Event.readAll _ => some Stage.ready
  | Stage.entered, Event.roundTrip k _ res err => some (Stage.attempted k res err)
  | Stage.ready, Event.roundTrip k _ res err => some (Stage.attempted k res err)
  | Stage.attempted k res err, Event.shouldRetry _ res1 err1 v =>
    if res1 = res ∧ err1 = err then
      some (if v then Stage.afterVerdict hasObserver hasBackoff k res err else Stage.stopped)
    else none
  | Stage.attempted _ _ _, Event.closeRequestBody _ => some Stage.over
  | Stage.retrying k res err, Event.onRetry _ res1 err1 k1 =>
    if res1 = res ∧ err1 = err ∧ k1 = k then some (Stage.afterObserver hasBackoff res) else none
  | Stage.closing r, Event.closeResponseBody r1 =>
    if r1 = r then some (Stage.afterRelease hasBackoff) else none
  | Stage.released, Event.sleep _ => some Stage.ready
  | Stage.stopped, Event.closeRequestBody _ => some Stage.over
  | _, _ => none

/-- The stage reached from `s` through a list of events, if they come in an
allowed order. -/
def follows (hasObserver hasBackoff : Bool) : Stage → List Event → Option Stage
  | s, [] => some s
  | s, e :: rest =>
    match advance hasObserver hasBackoff s e with
    | some s1 => follows hasObserver hasBackoff s1 rest
    | none => none

/-! ## Theorems -/

variable {σ : Type}

/-! ### Arithmetic and traces -/

theorem wrapInt_of_range (i : Int) (h1 : minInt ≤ i) (h2 : i ≤ maxInt) : wrapInt i = i := by
  unfold wrapInt; unfold minInt at h1; unfold maxInt at h2
  omega

theorem attempts_append (a b : List Event) : attempts (a ++ b) = attempts a + attempts b := by
  simp [attempts, List.countP_append]

theorem lastOutcome_append (a b : List Event) :
    lastOutcome (a ++ b) = match lastOutcome b with
      | some o => some o
      | none => lastOutcome a := by
  induction a with
  | nil => cases h : lastOutcome b <;> simp [lastOutcome, h]
  | cons e a ih =>
    cases h : lastOutcome b <;> rw [h] at ih <;> cases e <;>
      simp [lastOutcome, ih]

/-! ### The pieces of the loop body -/

theorem attempt_try (t : ResilientTransport σ) (orig : List Nat) (m : Machine σ) :
    (attempt t orig m).2.try_ = m.try_ := rfl

theorem attempt_trace (t : ResilientTransport σ) (orig : List Nat) (m : Machine σ) :
    (attempt t orig m).2.trace =
      m.trace ++ [Event.roundTrip m.try_ (installBody orig m.req)
        (attempt t orig m).1.res (attempt t orig m).1.err] := rfl

theorem consult_try (f : RetryPolicyFunc σ) (r : RoundTripResult σ) (m : Machine σ) :
    (consult f r m).2.try_ = m.try_ := rfl

theorem consult_trace (f : RetryPolicyFunc σ) (r : RoundTripResult σ) (m : Machine σ) :
    (consult f r m).2.trace = m.trace ++ [Event.shouldRetry m.req r.res r.err (consult f r m).1] :=
  rfl

theorem retry_try (t : ResilientTransport σ) (r : RoundTripResult σ) (m : Machine σ) :
    (retry t r m).try_ = wrapInt (m.try_ + 1) := by
  unfold retry increment backoff release notify Machine.emit
  cases t.OnRetry <;> cases r.res <;> cases t.Backoff <;> rfl

/-- The events a decided retry appends are none of them a call of `RoundTrip`. -/
theorem retry_trace (t : ResilientTransport σ) (r : RoundTripResult σ) (m : Machine σ) :
    ∃ l, (retry t r m).trace = m.trace ++ l ∧ ∀ e ∈ l, e.isRoundTrip = false := by
  unfold retry increment backoff release notify Machine.emit
  cases t.OnRetry <;> cases r.res <;> cases t.Backoff <;>
    simp only [List.append_assoc] <;>
    first
      | exact ⟨[], (List.append_nil _).symm, fun _ h => absurd h (List.not_mem_nil _)⟩
      | exact ⟨_, rfl, by simp [Event.isRoundTrip]⟩

/-! ### One iteration -/

theorem iteration_next_inv (t : ResilientTransport σ) (orig : List Nat) (m m1 : Machine σ)
    (h : iteration t orig m = Step.next m1) :
    m.try_ ≠ t.MaxTries ∧ ∃ f, t.ShouldRetry = some f ∧ verdictAt t f orig m = true ∧
      m1 = retryPath t f orig m := by
  unfold iteration at h
  simp only [attempt_try] at h
  split at h
  · cases h
  · rename_i hne
    split at h
    · cases h
    · rename_i f hf
      split at h
      · cases h
      · rename_i hv
        refine ⟨hne, f, hf, ?_, ?_⟩
        · simpa [verdictAt] using hv
        · cases h; rfl

theorem iteration_ret_inv (t : ResilientTransport σ) (orig : List Nat) (m m1 : Machine σ)
    (res : Option Response) (err : Option GoError)
    (h : iteration t orig m = Step.ret res err m1) :
    (res, err) = outcomeAt t orig m ∧
      ((m.try_ = t.MaxTries ∧ m1 = (attempt t orig m).2) ∨
        (m.try_ ≠ t.MaxTries ∧ ∃ f, t.ShouldRetry = some f ∧ verdictAt t f orig m = false ∧
          m1 = (consult f (attempt t orig m).1 (attempt t orig m).2).2)) := by
  unfold iteration at h
  simp only [attempt_try] at h
  split at h
  · rename_i heq
    cases h
    exact ⟨rfl, Or.inl ⟨heq, rfl⟩⟩
  · rename_i hne
    split at h
    · cases h
    · rename_i f hf
      split at h
      · rename_i hv
        cases h
        refine ⟨rfl, Or.inr ⟨hne, f, hf, ?_, rfl⟩⟩
        simpa [verdictAt] using hv
      · cases h

theorem iteration_panics_inv (t : ResilientTransport σ) (orig : List Nat) (m m1 : Machine σ)
    (h : iteration t orig m = Step.panics m1) :
    m.try_ ≠ t.MaxTries ∧ t.ShouldRetry = none ∧ m1 = (attempt t orig m).2 := by
  unfold iteration at h
  simp only [attempt_try] at h
  split at h
  · cases h
  · rename_i hne
    split at h
    · rename_i hf
      cases h
      exact ⟨hne, hf, rfl⟩
    · split at h <;> cases h

theorem retryPath_try (t : ResilientTransport σ) (f : RetryPolicyFunc σ) (orig : List Nat)
    (m : Machine σ) : (retryPath t f orig m).try_ = wrapInt (m.try_ + 1) := by
  unfold retryPath
  rw [retry_try, consult_try, attempt_try]

/-- A retried iteration appends its call of `RoundTrip` and then events that are
not calls of `RoundTrip`. -/
theorem retryPath_trace (t : ResilientTransport σ) (f : RetryPolicyFunc σ) (orig : List Nat)
    (m : Machine σ) :
    ∃ l, (retryPath t f orig m).trace =
        m.trace ++ Event.roundTrip m.try_ (installBody orig m.req)
          (outcomeAt t orig m).1 (outcomeAt t orig m).2 :: l ∧
      ∀ e ∈ l, e.isRoundTrip = false := by
  obtain ⟨l, hl, hl2⟩ := retry_trace t (attempt t orig m).1
    (consult f (attempt t orig m).1 (attempt t orig m).2).2
  refine ⟨Event.shouldRetry (attempt t orig m).2.req (attempt t orig m).1.res
    (attempt t orig m).1.err (verdictAt t f orig m) :: l, ?_, ?_⟩
  · unfold retryPath
    rw [hl, consult_trace, attempt_trace]
    simp [outcomeAt, verdictAt]
  · intro e he
    rcases List.mem_cons.1 he with rfl | he
    · rfl
    · exact hl2 e he

theorem attempts_of_no_roundTrip (l : List Event) (h : ∀ e ∈ l, e.isRoundTrip = false) :
    attempts l = 0 := by
  unfold attempts
  rw [List.countP_eq_zero]
  intro e he
  simp [h e he]

theorem retryPath_attempts (t : ResilientTransport σ) (f : RetryPolicyFunc σ) (orig : List Nat)
    (m : Machine σ) : attempts (retryPath t f orig m).trace = attempts m.trace + 1 := by
  obtain ⟨l, hl, hl2⟩ := retryPath_trace t f orig m
  rw [hl, attempts_append]
  have h0 := attempts_of_no_roundTrip l hl2
  simp only [attempts, List.countP_cons, Event.isRoundTrip] at h0 ⊢
  simp [h0]

theorem retryPath_roundTrip_mem (t : ResilientTransport σ) (f : RetryPolicyFunc σ)
    (orig : List Nat) (m : Machine σ) (k : Int) (rq : Request) (res : Option Response)
    (err : Option GoError) (h : Event.roundTrip k rq res err ∈ (retryPath t f orig m).trace) :
    Event.roundTrip k rq res err ∈ m.trace ∨
      (k = m.try_ ∧ rq = installBody orig m.req ∧ (res, err) = outcomeAt t orig m) := by
  obtain ⟨l, hl, hl2⟩ := retryPath_trace t f orig m
  rw [hl] at h
  rcases List.mem_append.1 h with h | h
  · exact Or.inl h
  · rcases List.mem_cons.1 h with h | h
    · right
      cases h
      exact ⟨rfl, rfl, rfl⟩
    · have := hl2 _ h
      simp [Event.isRoundTrip] at this

/-! ### The loop under `MaxTries ≥ 1` -/

theorem loop_bounded (t : ResilientTransport σ) (orig : List Nat) :
    ∀ (fuel : Nat) (m : Machine σ), 1 ≤ m.try_ → m.try_ ≤ t.MaxTries →
      (attempts m.trace : Int) + 1 = m.try_ →
      (∀ k rq res err, Event.roundTrip k rq res err ∈ m.trace → 1 ≤ k ∧ k ≤ t.MaxTries) →
      (attempts (loop t orig fuel m).trace : Int) ≤ t.MaxTries ∧
      (∀ k rq res err, Event.roundTrip k rq res err ∈ (loop t orig fuel m).trace →
        1 ≤ k ∧ k ≤ t.MaxTries) ∧
      (t.MaxTries - m.try_ + 1 ≤ fuel → ∀ m1, loop t orig fuel m ≠ Exec.running m1) := by
  intro fuel
  induction fuel with
  | zero =>
    intro m h1 h2 h3 h4
    refine ⟨?_, ?_, ?_⟩
    · simp only [loop, Exec.trace, Exec.machine]; omega
    · simpa only [loop, Exec.trace, Exec.machine] using h4
    · intro h; omega
  | succ fuel ih =>
    intro m h1 h2 h3 h4
    have hkey : ∀ k rq res err, Event.roundTrip k rq res err ∈ (attempt t orig m).2.trace →
        1 ≤ k ∧ k ≤ t.MaxTries := by
      intro k rq res err hmem
      rw [attempt_trace] at hmem
      rcases List.mem_append.1 hmem with hmem | hmem
      · exact h4 k rq res err hmem
      · simp only [List.mem_singleton] at hmem
        cases hmem
        exact ⟨h1, h2⟩
    have hcount : attempts (attempt t orig m).2.trace = attempts m.trace + 1 := by
      rw [attempt_trace, attempts_append]
      simp [attempts, Event.isRoundTrip]
    unfold loop
    cases hit : iteration t orig m with
    | next m1 =>
      obtain ⟨hne, f, hf, hv, rfl⟩ := iteration_next_inv t orig m m1 hit
      have hlt : m.try_ < t.MaxTries := lt_of_le_of_ne h2 hne
      have hw : wrapInt (m.try_ + 1) = m.try_ + 1 :=
        wrapInt_of_range _ (by have := t.MaxTries_range.1; unfold minInt at *; omega)
          (by have := t.MaxTries_range.2; omega)
      have htry : (retryPath t f orig m).try_ = m.try_ + 1 := by rw [retryPath_try, hw]
      have := ih (retryPath t f orig m) (by omega) (by omega)
        (by rw [retryPath_attempts, htry]; push_cast; omega)
        (by
          intro k rq res err hmem
          rcases retryPath_roundTrip_mem t f orig m k rq res err hmem with h | ⟨rfl, -, -⟩
          · exact h4 k rq res err h
          · exact ⟨h1, h2⟩)
      refine ⟨this.1, this.2.1, ?_⟩
      intro hfuel
      exact this.2.2 (by rw [htry]; push_cast at hfuel; omega)
    | ret res err m1 =>
      obtain ⟨-, hcase⟩ := iteration_ret_inv t orig m m1 res err hit
      simp only [Exec.trace, Exec.machine]
      rcases hcase with ⟨-, rfl⟩ | ⟨-, f, -, -, rfl⟩
      · refine ⟨by rw [hcount]; push_cast; omega, hkey, fun _ m1 h => by cases h⟩
      · refine ⟨?_, ?_, fun _ m1 h => by cases h⟩
        · have hc : attempts (consult f (attempt t orig m).1 (attempt t orig m).2).2.trace =
              attempts (attempt t orig m).2.trace := by
            rw [consult_trace, attempts_append]
            simp [attempts, Event.isRoundTrip]
          rw [hc, hcount]; push_cast; omega
        · intro k rq res err hmem
          rw [consult_trace] at hmem
          rcases List.mem_append.1 hmem with hmem | hmem
          · exact hkey k rq res err hmem
          · simp at hmem
    | panics m1 =>
      obtain ⟨-, -, rfl⟩ := iteration_panics_inv t orig m m1 hit
      simp only [Exec.trace, Exec.machine]
      exact ⟨by rw [hcount]; push_cast; omega, hkey, fun _ m1 h => by cases h⟩

/-! ### One iteration, forwards -/

theorem iteration_at_max (t : ResilientTransport σ) (orig : List Nat) (m : Machine σ)
    (h : m.try_ = t.MaxTries) :
    iteration t orig m =
      Step.ret (outcomeAt t orig m).1 (outcomeAt t orig m).2 (attempt t orig m).2 := by
  unfold iteration
  simp only [attempt_try, h, if_true, outcomeAt]

theorem iteration_refused (t : ResilientTransport σ) (f : RetryPolicyFunc σ) (orig : List Nat)
    (m : Machine σ) (h : m.try_ ≠ t.MaxTries) (hf : t.ShouldRetry = some f)
    (hv : verdictAt t f orig m = false) :
    iteration t orig m =
      Step.ret (outcomeAt t orig m).1 (outcomeAt t orig m).2
        (consult f (attempt t orig m).1 (attempt t orig m).2).2 := by
  unfold verdictAt at hv
  unfold iteration
  simp only [attempt_try, h, if_false, hf, hv, outcomeAt]
  rfl

theorem iteration_retried (t : ResilientTransport σ) (f : RetryPolicyFunc σ) (orig : List Nat)
    (m : Machine σ) (h : m.try_ ≠ t.MaxTries) (hf : t.ShouldRetry = some f)
    (hv : verdictAt t f orig m = true) :
    iteration t orig m = Step.next (retryPath t f orig m) := by
  unfold verdictAt at hv
  unfold iteration
  simp only [attempt_try, h, if_false, hf, hv]
  rfl

theorem startOf_succ_left (t : ResilientTransport σ) (f : RetryPolicyFunc σ) (orig : List Nat)
    (m0 : Machine σ) (i : Nat) :
    startOf t f orig m0 (i + 1) = startOf t f orig (retryPath t f orig m0) i := by
  induction i with
  | zero => rfl
  | succ i ih =>
    show retryPath t f orig (startOf t f orig m0 (i + 1)) = _
    rw [ih]
    rfl

theorem attempt_attempts (t : ResilientTransport σ) (orig : List Nat) (m : Machine σ) :
    attempts (attempt t orig m).2.trace = attempts m.trace + 1 := by
  rw [attempt_trace, attempts_append]
  simp [attempts, Event.isRoundTrip]

theorem consult_attempts (f : RetryPolicyFunc σ) (r : RoundTripResult σ) (m : Machine σ) :
    attempts (consult f r m).2.trace = attempts m.trace := by
  rw [consult_trace, attempts_append]
  simp [attempts, Event.isRoundTrip]

/-- The loop stops at the first attempt whose outcome the policy refuses to
retry, or at attempt `MaxTries`, whichever comes first. -/
theorem loop_stops (t : ResilientTransport σ) (f : RetryPolicyFunc σ)
    (hf : t.ShouldRetry = some f) (orig : List Nat) :
    ∀ (j : Nat) (m0 : Machine σ) (fuel : Nat), 1 ≤ m0.try_ → m0.try_ + j ≤ t.MaxTries →
      (∀ i, i < j → verdictAt t f orig (startOf t f orig m0 i) = true) →
      (verdictAt t f orig (startOf t f orig m0 j) = false ∨ m0.try_ + j = t.MaxTries) →
      j + 1 ≤ fuel →
      ∃ m, loop t orig fuel m0 =
          Exec.returned (outcomeAt t orig (startOf t f orig m0 j)).1
            (outcomeAt t orig (startOf t f orig m0 j)).2 m ∧
        attempts m.trace = attempts m0.trace + (j + 1) := by
  intro j
  induction j with
  | zero =>
    intro m0 fuel _ _ _ hstop hfuel
    obtain ⟨fuel, rfl⟩ : ∃ n, fuel = n + 1 := ⟨fuel - 1, by omega⟩
    unfold loop
    by_cases hmax : m0.try_ = t.MaxTries
    · rw [iteration_at_max t orig m0 hmax]
      exact ⟨_, rfl, attempt_attempts t orig m0⟩
    · have hv : verdictAt t f orig m0 = false := by
        rcases hstop with h | h
        · exact h
        · exact absurd (by simpa using h) hmax
      rw [iteration_refused t f orig m0 hmax hf hv]
      refine ⟨_, rfl, ?_⟩
      rw [consult_attempts, attempt_attempts]
  | succ j ih =>
    intro m0 fuel h1 h2 htrue hstop hfuel
    obtain ⟨fuel, rfl⟩ : ∃ n, fuel = n + 1 := ⟨fuel - 1, by omega⟩
    have hne : m0.try_ ≠ t.MaxTries := by push_cast at h2; omega
    have hv : verdictAt t f orig m0 = true := htrue 0 (Nat.succ_pos j)
    have hw : wrapInt (m0.try_ + 1) = m0.try_ + 1 :=
      wrapInt_of_range _ (by unfold minInt; omega)
        (by have := t.MaxTries_range.2; push_cast at h2; omega)
    have htry : (retryPath t f orig m0).try_ = m0.try_ + 1 := by rw [retryPath_try, hw]
    unfold loop
    rw [iteration_retried t f orig m0 hne hf hv]
    simp only
    obtain ⟨m, hm, hcount⟩ := ih (retryPath t f orig m0) fuel (by omega)
      (by rw [htry]; push_cast at h2; omega)
      (by
        intro i hi
        rw [← startOf_succ_left]
        exact htrue (i + 1) (by omega))
      (by
        rw [← startOf_succ_left, htry]
        rcases hstop with h | h
        · exact Or.inl h
        · right; push_cast at h; omega)
      (by omega)
    refine ⟨m, ?_, ?_⟩
    · rw [hm, startOf_succ_left]
    · rw [hcount, retryPath_attempts]; omega

/-! ### Prologue and deferred call -/

theorem start_try (req : Request) (w : σ) : (start req w).try_ = 1 := by
  unfold start; split <;> rfl

theorem start_world (req : Request) (w : σ) : (start req w).world = w := by
  unfold start; split <;> rfl

theorem start_no_roundTrip (req : Request) (w : σ) :
    ∀ e ∈ (start req w).trace, e.isRoundTrip = false ∧ e.isRetryLogic = false := by
  unfold start
  split <;> simp [Event.isRoundTrip, Event.isRetryLogic]

theorem start_attempts (req : Request) (w : σ) : attempts (start req w).trace = 0 :=
  attempts_of_no_roundTrip _ (fun e he => (start_no_roundTrip req w e he).1)

theorem tries_no_body (t : ResilientTransport σ) (fuel : Nat) (req : Request) (w : σ)
    (h : req.Body = none) : tries t fuel req w = loop t (origOf req) fuel (start req w) := by
  unfold tries; rw [h]

theorem tries_body_ok (t : ResilientTransport σ) (fuel : Nat) (req : Request) (w : σ)
    (body : ReadCloser) (h : req.Body = some body) (hok : (ReadAll body).2 = none) :
    tries t fuel req w = runDeferred body (loop t (origOf req) fuel (start req w)) := by
  unfold tries; rw [h]; simp only [hok]

theorem tries_body_err (t : ResilientTransport σ) (fuel : Nat) (req : Request) (w : σ)
    (body : ReadCloser) (e : GoError) (h : req.Body = some body)
    (herr : (ReadAll body).2 = some e) :
    tries t fuel req w = Exec.returned none (some e) (start req w) := by
  unfold tries; rw [h]; simp only [herr]

/-- When buffering succeeds, a run of `tries` is the run of its loop, followed
by at most one event that is neither a call of `RoundTrip` nor retry logic. -/
theorem tries_of_bufferingSucceeds (t : ResilientTransport σ) (fuel : Nat) (req : Request)
    (w : σ) (hbody : bufferingSucceeds req) :
    tries t fuel req w = loop t (origOf req) fuel (start req w) ∨
      ∃ body, tries t fuel req w = runDeferred body (loop t (origOf req) fuel (start req w)) := by
  unfold bufferingSucceeds at hbody
  cases hb : req.Body with
  | none => exact Or.inl (tries_no_body t fuel req w hb)
  | some body =>
    rw [hb] at hbody
    exact Or.inr ⟨body, tries_body_ok t fuel req w body hb hbody⟩

theorem runDeferred_trace (body : ReadCloser) (e : Exec σ) :
    (runDeferred body e).trace = e.trace ∨
      (runDeferred body e).trace = e.trace ++ [Event.closeRequestBody body] := by
  cases e <;> simp [runDeferred, Exec.trace, Exec.machine, Machine.emit]

theorem runDeferred_attempts (body : ReadCloser) (e : Exec σ) :
    attempts (runDeferred body e).trace = attempts e.trace := by
  rcases runDeferred_trace body e with h | h <;> rw [h]
  rw [attempts_append]
  simp [attempts, Event.isRoundTrip]

theorem runDeferred_roundTrip_mem (body : ReadCloser) (e : Exec σ) (k : Int) (rq : Request)
    (res : Option Response) (err : Option GoError)
    (h : Event.roundTrip k rq res err ∈ (runDeferred body e).trace) :
    Event.roundTrip k rq res err ∈ e.trace := by
  rcases runDeferred_trace body e with h1 | h1 <;> rw [h1] at h
  · exact h
  · simpa using h

theorem runDeferred_running (body : ReadCloser) (e : Exec σ) (m : Machine σ)
    (h : runDeferred body e = Exec.running m) : e = Exec.running m := by
  cases e <;> simp [runDeferred] at h ⊢
  exact h

theorem runDeferred_returned (body : ReadCloser) (e : Exec σ) (res : Option Response)
    (err : Option GoError) (m : Machine σ) (h : runDeferred body e = Exec.returned res err m) :
    ∃ m1, e = Exec.returned res err m1 ∧ m = m1.emit (Event.closeRequestBody body) := by
  cases e with
  | returned r e1 m1 =>
    simp only [runDeferred, Exec.returned.injEq] at h
    obtain ⟨rfl, rfl, rfl⟩ := h
    exact ⟨m1, rfl, rfl⟩
  | panicked m1 => simp [runDeferred] at h
  | running m1 => simp [runDeferred] at h

/-! ### Claims on the attempt ceiling -/

/-- C1: with `MaxTries = N ≥ 1`, whatever the request, the policies and the
underlying transport do, and however long `tries` has run, the underlying
`RoundTrip` has been called at most `N` times, every call was made with the
loop counter `try` between 1 and `N`, and after `N` iterations the run is over. -/
theorem tries_attempts_le_MaxTries (t : ResilientTransport σ) (hN : 1 ≤ t.MaxTries)
    (fuel : Nat) (req : Request) (w : σ) :
    (attempts (tries t fuel req w).trace : Int) ≤ t.MaxTries ∧
    (∀ k rq res err, Event.roundTrip k rq res err ∈ (tries t fuel req w).trace →
      1 ≤ k ∧ k ≤ t.MaxTries) ∧
    (t.MaxTries ≤ fuel → ∀ m, tries t fuel req w ≠ Exec.running m) := by
  have hloop := loop_bounded t (origOf req) fuel (start req w)
    (by rw [start_try]) (by rw [start_try]; exact hN)
    (by rw [start_attempts, start_try]; rfl)
    (by
      intro k rq res err hmem
      have := (start_no_roundTrip req w _ hmem).1
      simp [Event.isRoundTrip] at this)
  rw [start_try] at hloop
  cases hb : req.Body with
  | none =>
    rw [tries_no_body t fuel req w hb]
    exact ⟨hloop.1, hloop.2.1, fun h => hloop.2.2 (by omega)⟩
  | some body =>
    cases herr : (ReadAll body).2 with
    | some e =>
      rw [tries_body_err t fuel req w body e hb herr]
      refine ⟨?_, ?_, fun _ m h => by cases h⟩
      · simp only [Exec.trace, Exec.machine, start_attempts]
        push_cast; omega
      · intro k rq res err hmem
        have := (start_no_roundTrip req w _ hmem).1
        simp [Event.isRoundTrip] at this
    | none =>
      rw [tries_body_ok t fuel req w body hb herr]
      refine ⟨?_, ?_, ?_⟩
      · rw [runDeferred_attempts]; exact hloop.1
      · intro k rq res err hmem
        exact hloop.2.1 k rq res err (runDeferred_roundTrip_mem body _ k rq res err hmem)
      · intro h m hm
        exact hloop.2.2 (by omega) m (runDeferred_running body _ m hm)

theorem tries_attempts_le_MaxTries_witness :
    (1 : Int) ≤ (sampleTransport 3 (by decide) 5).MaxTries ∧
    ((attempts (tries (sampleTransport 3 (by decide) 5) 7 samplePost 0).trace : Int) ≤
        (sampleTransport 3 (by decide) 5).MaxTries ∧
      (∀ k rq res err, Event.roundTrip k rq res err ∈
          (tries (sampleTransport 3 (by decide) 5) 7 samplePost 0).trace →
        1 ≤ k ∧ k ≤ (sampleTransport 3 (by decide) 5).MaxTries) ∧
      ((sampleTransport 3 (by decide) 5).MaxTries ≤ (7 : Nat) →
        ∀ m, tries (sampleTransport 3 (by decide) 5) 7 samplePost 0 ≠ Exec.running m)) :=
  ⟨by decide, tries_attempts_le_MaxTries (sampleTransport 3 (by decide) 5) (by decide) 7
    samplePost 0⟩

/-- When buffering succeeds and the loop returns, so does `tries`, with the same
pair and the same number of calls of `RoundTrip`. -/
theorem tries_returned_of_loop (t : ResilientTransport σ) (fuel : Nat) (req : Request) (w : σ)
    (hbody : bufferingSucceeds req) (res : Option Response) (err : Option GoError)
    (m : Machine σ) (h : loop t (origOf req) fuel (start req w) = Exec.returned res err m) :
    ∃ m1, tries t fuel req w = Exec.returned res err m1 ∧
      attempts m1.trace = attempts m.trace := by
  rcases tries_of_bufferingSucceeds t fuel req w hbody with ht | ⟨body, ht⟩
  · exact ⟨m, by rw [ht, h], rfl⟩
  · refine ⟨m.emit (Event.closeRequestBody body), by rw [ht, h]; rfl, ?_⟩
    simp [Machine.emit, attempts_append, attempts, Event.isRoundTrip]

/-- C2: with `MaxTries = N ≥ 1` and a policy that answers true on the outcome of
every attempt, `tries` returns after exactly `N` calls of the underlying
`RoundTrip`, and what it returns is the outcome of attempt `N`. -/
theorem tries_exhausts_MaxTries (t : ResilientTransport σ) (f : RetryPolicyFunc σ)
    (hf : t.ShouldRetry = some f) (hN : 1 ≤ t.MaxTries) (req : Request) (w : σ)
    (hbody : bufferingSucceeds req)
    (htrue : ∀ i : Nat, (i : Int) < t.MaxTries →
      verdictAt t f (origOf req) (startOf t f (origOf req) (start req w) i) = true)
    (fuel : Nat) (hfuel : t.MaxTries ≤ fuel) :
    ∃ m, tries t fuel req w =
        Exec.returned
          (outcomeAt t (origOf req)
            (startOf t f (origOf req) (start req w) (t.MaxTries.toNat - 1))).1
          (outcomeAt t (origOf req)
            (startOf t f (origOf req) (start req w) (t.MaxTries.toNat - 1))).2 m ∧
      (attempts m.trace : Int) = t.MaxTries := by
  obtain ⟨m, hm, hcount⟩ := loop_stops t f hf (origOf req) (t.MaxTries.toNat - 1)
    (start req w) fuel (by rw [start_try]) (by rw [start_try]; omega)
    (fun i hi => htrue i (by omega)) (Or.inr (by rw [start_try]; omega)) (by omega)
  obtain ⟨m1, hm1, hc1⟩ := tries_returned_of_loop t fuel req w hbody _ _ m hm
  refine ⟨m1, hm1, ?_⟩
  rw [hc1, hcount, start_attempts]
  omega

theorem tries_exhausts_MaxTries_witness :
    ∃ m, tries (sampleTransport 3 (by decide) 5) 4 samplePost 0 =
        Exec.returned
          (outcomeAt (sampleTransport 3 (by decide) 5) (origOf samplePost)
            (startOf (sampleTransport 3 (by decide) 5) DefaultRetryPolicyFunc (origOf samplePost)
              (start samplePost 0) ((sampleTransport 3 (by decide) 5).MaxTries.toNat - 1))).1
          (outcomeAt (sampleTransport 3 (by decide) 5) (origOf samplePost)
            (startOf (sampleTransport 3 (by decide) 5) DefaultRetryPolicyFunc (origOf samplePost)
              (start samplePost 0) ((sampleTransport 3 (by decide) 5).MaxTries.toNat - 1))).2 m ∧
      (attempts m.trace : Int) = (sampleTransport 3 (by decide) 5).MaxTries :=
  tries_exhausts_MaxTries (sampleTransport 3 (by decide) 5) DefaultRetryPolicyFunc rfl
    (by decide) samplePost 0 (by decide)
    (by
      intro i hi
      have hi3 : i < 3 := by
        have : (i : Int) < 3 := hi
        omega
      interval_cases i <;> decide)
    4 (by decide)

/-- C4: with `MaxTries = N ≥ 1` and `1 ≤ k ≤ N`, if the policy answers true on
the outcomes of attempts `1..k-1` and false on the outcome of attempt `k`, then
`tries` returns after exactly `k` calls of the underlying `RoundTrip`, and what
it returns is the outcome of attempt `k`. -/
theorem tries_stops_at_first_refusal (t : ResilientTransport σ) (f : RetryPolicyFunc σ)
    (hf : t.ShouldRetry = some f) (req : Request) (w : σ) (hbody : bufferingSucceeds req)
    (k : Nat) (hk : 1 ≤ k) (hkN : (k : Int) ≤ t.MaxTries)
    (htrue : ∀ i, i + 1 < k →
      verdictAt t f (origOf req) (startOf t f (origOf req) (start req w) i) = true)
    (hfalse : verdictAt t f (origOf req) (startOf t f (origOf req) (start req w) (k - 1)) = false)
    (fuel : Nat) (hfuel : k ≤ fuel) :
    ∃ m, tries t fuel req w =
        Exec.returned
          (outcomeAt t (origOf req) (startOf t f (origOf req) (start req w) (k - 1))).1
          (outcomeAt t (origOf req) (startOf t f (origOf req) (start req w) (k - 1))).2 m ∧
      attempts m.trace = k := by
  obtain ⟨m, hm, hcount⟩ := loop_stops t f hf (origOf req) (k - 1)
    (start req w) fuel (by rw [start_try]) (by rw [start_try]; omega)
    (fun i hi => htrue i (by omega)) (Or.inl hfalse) (by omega)
  obtain ⟨m1, hm1, hc1⟩ := tries_returned_of_loop t fuel req w hbody _ _ m hm
  refine ⟨m1, hm1, ?_⟩
  rw [hc1, hcount, start_attempts]
  omega

theorem tries_stops_at_first_refusal_witness :
    ∃ m, tries (sampleTransport 3 (by decide) 1) 2 samplePost 0 =
        Exec.returned
          (outcomeAt (sampleTransport 3 (by decide) 1) (origOf samplePost)
            (startOf (sampleTransport 3 (by decide) 1) DefaultRetryPolicyFunc (origOf samplePost)
              (start samplePost 0) (2 - 1))).1
          (outcomeAt (sampleTransport 3 (by decide) 1) (origOf samplePost)
            (startOf (sampleTransport 3 (by decide) 1) DefaultRetryPolicyFunc (origOf samplePost)
              (start samplePost 0) (2 - 1))).2 m ∧
      attempts m.trace = 2 :=
  tries_stops_at_first_refusal (sampleTransport 3 (by decide) 1) DefaultRetryPolicyFunc rfl
    samplePost 0 (by decide) 2 (by decide) (by decide)
    (by
      intro i hi
      have hi0 : i = 0 := by omega
      subst hi0
      decide)
    (by decide) 2 (by decide)

theorem lastOutcome_snoc_roundTrip (l : List Event) (k : Int) (rq : Request)
    (res : Option Response) (err : Option GoError) :
    lastOutcome (l ++ [Event.roundTrip k rq res err]) = some (res, err) := by
  rw [lastOutcome_append]
  simp [lastOutcome]

theorem lastOutcome_snoc_other (l : List Event) (e : Event) (h : e.isRoundTrip = false) :
    lastOutcome (l ++ [e]) = lastOutcome l := by
  rw [lastOutcome_append]
  cases e <;> simp [lastOutcome, Event.isRoundTrip] at h ⊢

/-- Whenever the loop returns, it returns the pair of the latest call of `RoundTrip`. -/
theorem loop_returns_last (t : ResilientTransport σ) (orig : List Nat) :
    ∀ (fuel : Nat) (m m1 : Machine σ) (res : Option Response) (err : Option GoError),
      loop t orig fuel m = Exec.returned res err m1 → lastOutcome m1.trace = some (res, err) := by
  intro fuel
  induction fuel with
  | zero => intro m m1 res err h; simp [loop] at h
  | succ fuel ih =>
    intro m m1 res err h
    unfold loop at h
    cases hit : iteration t orig m with
    | next m2 =>
      rw [hit] at h
      exact ih m2 m1 res err h
    | ret res2 err2 m2 =>
      rw [hit] at h
      simp only [Exec.returned.injEq] at h
      obtain ⟨rfl, rfl, rfl⟩ := h
      obtain ⟨ho, hcase⟩ := iteration_ret_inv t orig m m2 res2 err2 hit
      rw [ho]
      rcases hcase with ⟨-, rfl⟩ | ⟨-, f, -, -, rfl⟩
      · rw [attempt_trace, lastOutcome_snoc_roundTrip]; rfl
      · rw [consult_trace, lastOutcome_snoc_other _ (Event.shouldRetry _ _ _ _) rfl,
          attempt_trace, lastOutcome_snoc_roundTrip]
        rfl
    | panics m2 =>
      rw [hit] at h
      cases h

/-- With a non-nil policy the loop does not panic. -/
theorem loop_no_panic (t : ResilientTransport σ) (f : RetryPolicyFunc σ)
    (hf : t.ShouldRetry = some f) (orig : List Nat) :
    ∀ (fuel : Nat) (m m1 : Machine σ), loop t orig fuel m ≠ Exec.panicked m1 := by
  intro fuel
  induction fuel with
  | zero => intro m m1 h; simp [loop] at h
  | succ fuel ih =>
    intro m m1 h
    unfold loop at h
    cases hit : iteration t orig m with
    | next m2 => rw [hit] at h; exact ih m2 m1 h
    | ret res2 err2 m2 => rw [hit] at h; cases h
    | panics m2 =>
      obtain ⟨-, hnone, -⟩ := iteration_panics_inv t orig m m2 hit
      rw [hf] at hnone
      cases hnone

/-- With `MaxTries ≥ 1` and a non-nil policy, the loop entered by `tries` has
returned once it has run for `MaxTries` iterations. -/
theorem loop_returns (t : ResilientTransport σ) (f : RetryPolicyFunc σ)
    (hf : t.ShouldRetry = some f) (hN : 1 ≤ t.MaxTries) (req : Request) (w : σ)
    (fuel : Nat) (hfuel : t.MaxTries ≤ fuel) :
    ∃ res err m, loop t (origOf req) fuel (start req w) = Exec.returned res err m := by
  have hloop := loop_bounded t (origOf req) fuel (start req w)
    (by rw [start_try]) (by rw [start_try]; exact hN)
    (by rw [start_attempts, start_try]; rfl)
    (by
      intro k rq res err hmem
      have := (start_no_roundTrip req w _ hmem).1
      simp [Event.isRoundTrip] at this)
  rw [start_try] at hloop
  cases h : loop t (origOf req) fuel (start req w) with
  | returned res err m => exact ⟨res, err, m, rfl⟩
  | panicked m => exact absurd h (loop_no_panic t f hf (origOf req) fuel _ m)
  | running m => exact absurd h (hloop.2.2 (by omega) m)

/-- C3: with `MaxTries ≥ 1` and a request whose body, if any, is buffered
without error, whenever `tries` returns `(res, err)` that pair is the one
returned by the last call of the underlying `RoundTrip`; and with a non-nil
policy `tries` does return once it has run for `MaxTries` iterations. -/
theorem tries_returns_last_outcome (t : ResilientTransport σ) (hN : 1 ≤ t.MaxTries)
    (req : Request) (w : σ) (hbody : bufferingSucceeds req) :
    (∀ fuel res err m, tries t fuel req w = Exec.returned res err m →
      lastOutcome m.trace = some (res, err)) ∧
    (∀ f, t.ShouldRetry = some f → ∀ fuel : Nat, t.MaxTries ≤ fuel →
      ∃ res err m, tries t fuel req w = Exec.returned res err m) := by
  constructor
  · intro fuel res err m h
    rcases tries_of_bufferingSucceeds t fuel req w hbody with ht | ⟨body, ht⟩
    · rw [ht] at h
      exact loop_returns_last t (origOf req) fuel _ m res err h
    · rw [ht] at h
      obtain ⟨m1, hm1, rfl⟩ := runDeferred_returned body _ res err m h
      have := loop_returns_last t (origOf req) fuel _ m1 res err hm1
      simp only [Machine.emit]
      rw [lastOutcome_snoc_other _ (Event.closeRequestBody body) rfl, this]
  · intro f hf fuel hfuel
    obtain ⟨res, err, m, hm⟩ := loop_returns t f hf hN req w fuel hfuel
    obtain ⟨m1, hm1, -⟩ := tries_returned_of_loop t fuel req w hbody res err m hm
    exact ⟨res, err, m1, hm1⟩

theorem tries_returns_last_outcome_witness :
    ∃ res err m,
      tries (sampleTransport 3 (by decide) 5) 4 samplePost 0 = Exec.returned res err m ∧
        lastOutcome m.trace = some (res, err) :=
  have h := tries_returns_last_outcome (sampleTransport 3 (by decide) 5) (by decide)
    samplePost 0 (by decide)
  match h.2 DefaultRetryPolicyFunc rfl 4 (by decide) with
  | ⟨res, err, m, hm⟩ => ⟨res, err, m, hm, h.1 4 res err m hm⟩

/-! ### A single try -/

theorem installBody_start (req : Request) (w : σ) (hbody : bufferingSucceeds req) :
    installBody (origOf req) (start req w).req = req := by
  unfold bufferingSucceeds at hbody
  obtain ⟨method, url, body⟩ := req
  cases body with
  | none => rfl
  | some body =>
    obtain ⟨data, err⟩ := body
    simp only [ReadAll] at hbody
    subst hbody
    rfl

/-- C5 (amended): with `MaxTries = 1` and a request whose body, if any, is
buffered without error, `tries` makes the one call `RoundTrip(req)` of the
underlying transport, returns its `(res, err)` and leaves the world as that
call left it; `ShouldRetry`, `OnRetry` and `Backoff` are not invoked and no
response body is closed. -/
theorem tries_single_try_passthrough (t : ResilientTransport σ) (h1 : t.MaxTries = 1)
    (req : Request) (w : σ) (hbody : bufferingSucceeds req) (fuel : Nat) (hfuel : 1 ≤ fuel) :
    ∃ m, tries t fuel req w =
        Exec.returned (t.transport req w).res (t.transport req w).err m ∧
      m.world = (t.transport req w).world ∧
      Event.roundTrip 1 req (t.transport req w).res (t.transport req w).err ∈ m.trace ∧
      attempts m.trace = 1 ∧
      ∀ e ∈ m.trace, e.isRetryLogic = false := by
  obtain ⟨fuel, rfl⟩ : ∃ n, fuel = n + 1 := ⟨fuel - 1, by omega⟩
  have hmax : (start req w).try_ = t.MaxTries := by rw [start_try, h1]
  have hloop : loop t (origOf req) (fuel + 1) (start req w) =
      Exec.returned (t.transport req w).res (t.transport req w).err
        (attempt t (origOf req) (start req w)).2 := by
    unfold loop
    rw [iteration_at_max t (origOf req) (start req w) hmax]
    simp only [outcomeAt, attempt, installBody_start req w hbody, start_world]
  have hworld : (attempt t (origOf req) (start req w)).2.world = (t.transport req w).world := by
    simp only [attempt, installBody_start req w hbody, start_world]
  have htrace : (attempt t (origOf req) (start req w)).2.trace = (start req w).trace ++
      [Event.roundTrip 1 req (t.transport req w).res (t.transport req w).err] := by
    rw [attempt_trace]
    simp only [attempt, installBody_start req w hbody, start_world, start_try]
  have hquiet : ∀ e ∈ (attempt t (origOf req) (start req w)).2.trace,
      e.isRetryLogic = false := by
    intro e he
    rw [htrace] at he
    rcases List.mem_append.1 he with he | he
    · exact (start_no_roundTrip req w e he).2
    · simp only [List.mem_singleton] at he
      subst he
      rfl
  have hcount : attempts (attempt t (origOf req) (start req w)).2.trace = 1 := by
    rw [attempt_attempts, start_attempts]
  rcases tries_of_bufferingSucceeds t (fuel + 1) req w hbody with ht | ⟨body, ht⟩
  · refine ⟨_, by rw [ht, hloop], hworld, ?_, hcount, hquiet⟩
    rw [htrace]; simp
  · refine ⟨(attempt t (origOf req) (start req w)).2.emit (Event.closeRequestBody body),
      by rw [ht, hloop]; rfl, hworld, ?_, ?_, ?_⟩
    · simp only [Machine.emit]
      rw [htrace]; simp
    · simp only [Machine.emit]
      rw [attempts_append, hcount]
      simp [attempts, Event.isRoundTrip]
    · intro e he
      simp only [Machine.emit] at he
      rcases List.mem_append.1 he with he | he
      · exact hquiet e he
      · simp only [List.mem_singleton] at he
        subst he
        rfl

theorem tries_single_try_passthrough_witness :
    ∃ m, tries (sampleTransport 1 (by decide) 5) 1 samplePost 0 =
        Exec.returned ((sampleTransport 1 (by decide) 5).transport samplePost 0).res
          ((sampleTransport 1 (by decide) 5).transport samplePost 0).err m ∧
      m.world = ((sampleTransport 1 (by decide) 5).transport samplePost 0).world ∧
      Event.roundTrip 1 samplePost ((sampleTransport 1 (by decide) 5).transport samplePost 0).res
        ((sampleTransport 1 (by decide) 5).transport samplePost 0).err ∈ m.trace ∧
      attempts m.trace = 1 ∧
      ∀ e ∈ m.trace, e.isRetryLogic = false :=
  tries_single_try_passthrough (sampleTransport 1 (by decide) 5) rfl samplePost 0 (by decide)
    1 (by decide)

/-- C5 fails as stated: with `MaxTries = 1` and a request whose body cannot be
read to its end, `tries` makes no call of the underlying `RoundTrip` and
returns the read error, whereas one call of the underlying `RoundTrip` on that
request yields a response and no error. -/
theorem tries_single_try_broken_body :
    tries (sampleTransport 1 (by decide) 0) 1 brokenPost 0 =
        Exec.returned none (some (GoError.plain "unexpected EOF")) (start brokenPost 0) ∧
      attempts (tries (sampleTransport 1 (by decide) 0) 1 brokenPost 0).trace = 0 ∧
      ((sampleTransport 1 (by decide) 0).transport brokenPost 0).res =
        some { StatusCode := 200, Body := newBufferReader [112, 111, 110, 103] } ∧
      ((sampleTransport 1 (by decide) 0).transport brokenPost 0).err = none :=
  ⟨rfl, by decide, rfl, rfl⟩

/-! ### Body replay -/

theorem retry_req (t : ResilientTransport σ) (r : RoundTripResult σ) (m : Machine σ) :
    (retry t r m).req = m.req := by
  unfold retry increment backoff release notify Machine.emit
  cases t.OnRetry <;> cases r.res <;> cases t.Backoff <;> rfl

theorem installBody_body (orig : List Nat) (req : Request) (h : req.Body ≠ none) :
    (installBody orig req).Body = some (newBufferReader orig) := by
  unfold installBody
  cases hb : req.Body with
  | none => exact absurd hb h
  | some b => rfl

theorem retryPath_body (t : ResilientTransport σ) (f : RetryPolicyFunc σ) (orig : List Nat)
    (m : Machine σ) (h : m.req.Body ≠ none) : (retryPath t f orig m).req.Body ≠ none := by
  unfold retryPath
  rw [retry_req]
  show ((installBody orig m.req).consume _).Body ≠ none
  simp [Request.consume, installBody_body orig m.req h]

/-- Every call of `RoundTrip` the loop makes on a request with a body is made
with a fresh reader over `orig`. -/
theorem loop_installs_orig (t : ResilientTransport σ) (orig : List Nat) :
    ∀ (fuel : Nat) (m : Machine σ), m.req.Body ≠ none →
      (∀ k rq res err, Event.roundTrip k rq res err ∈ m.trace →
        rq.Body = some (newBufferReader orig)) →
      ∀ k rq res err, Event.roundTrip k rq res err ∈ (loop t orig fuel m).trace →
        rq.Body = some (newBufferReader orig) := by
  intro fuel
  induction fuel with
  | zero => intro m _ h; simpa only [loop, Exec.trace, Exec.machine] using h
  | succ fuel ih =>
    intro m hb h
    have hkey : ∀ k rq res err, Event.roundTrip k rq res err ∈ (attempt t orig m).2.trace →
        rq.Body = some (newBufferReader orig) := by
      intro k rq res err hmem
      rw [attempt_trace] at hmem
      rcases List.mem_append.1 hmem with hmem | hmem
      · exact h k rq res err hmem
      · simp only [List.mem_singleton] at hmem
        cases hmem
        exact installBody_body orig m.req hb
    unfold loop
    cases hit : iteration t orig m with
    | next m1 =>
      obtain ⟨-, f, -, -, rfl⟩ := iteration_next_inv t orig m m1 hit
      refine ih (retryPath t f orig m) (retryPath_body t f orig m hb) ?_
      intro k rq res err hmem
      rcases retryPath_roundTrip_mem t f orig m k rq res err hmem with h1 | ⟨-, rfl, -⟩
      · exact h k rq res err h1
      · exact installBody_body orig m.req hb
    | ret res err m1 =>
      obtain ⟨-, hcase⟩ := iteration_ret_inv t orig m m1 res err hit
      simp only [Exec.trace, Exec.machine]
      rcases hcase with ⟨-, rfl⟩ | ⟨-, f, -, -, rfl⟩
      · exact hkey
      · intro k rq res err hmem
        rw [consult_trace] at hmem
        rcases List.mem_append.1 hmem with hmem | hmem
        · exact hkey k rq res err hmem
        · simp at hmem
    | panics m1 =>
      obtain ⟨-, -, rfl⟩ := iteration_panics_inv t orig m m1 hit
      simpa only [Exec.trace, Exec.machine] using hkey

/-- C6: when the request body is non-nil and reads without error as the bytes
`B`, every call of the underlying `RoundTrip` that `tries` makes, the first
included, receives a request whose body reader yields exactly `B` when read to
its end, however much of the body the earlier calls consumed. -/
theorem tries_replays_body (t : ResilientTransport σ) (fuel : Nat) (req : Request) (w : σ)
    (body : ReadCloser) (B : List Nat) (hb : req.Body = some body)
    (hread : ReadAll body = (B, none)) :
    ∀ k rq res err, Event.roundTrip k rq res err ∈ (tries t fuel req w).trace →
      ∃ rd, rq.Body = some rd ∧ ReadAll rd = (B, none) := by
  intro k rq res err hmem
  have hok : (ReadAll body).2 = none := by rw [hread]
  have horig : origOf req = B := by
    unfold origOf; rw [hb]; simp only [hread]
  rw [tries_body_ok t fuel req w body hb hok] at hmem
  have hmem := runDeferred_roundTrip_mem body _ k rq res err hmem
  have hstart : (start req w).req.Body ≠ none := by
    unfold start; rw [hb]; simp
  have := loop_installs_orig t (origOf req) fuel (start req w) hstart
    (by
      intro k rq res err hm
      have := (start_no_roundTrip req w _ hm).1
      simp [Event.isRoundTrip] at this)
    k rq res err hmem
  exact ⟨newBufferReader (origOf req), this, by rw [horig]; rfl⟩

theorem tries_replays_body_witness :
    attempts (tries (sampleTransport 3 (by decide) 5) 4 samplePost 0).trace = 3 ∧
      ∀ k rq res err, Event.roundTrip k rq res err ∈
          (tries (sampleTransport 3 (by decide) 5) 4 samplePost 0).trace →
        ∃ rd, rq.Body = some rd ∧ ReadAll rd = ([112, 105, 110, 103], none) :=
  ⟨by decide, tries_replays_body (sampleTransport 3 (by decide) 5) 4 samplePost 0
    (newBufferReader [112, 105, 110, 103]) [112, 105, 110, 103] rfl rfl⟩

/-! ### Buffering failure -/

theorem loop_attempts_mono (t : ResilientTransport σ) (orig : List Nat) :
    ∀ (fuel : Nat) (m : Machine σ), attempts m.trace ≤ attempts (loop t orig fuel m).trace := by
  intro fuel
  induction fuel with
  | zero => intro m; exact le_refl _
  | succ fuel ih =>
    intro m
    unfold loop
    cases hit : iteration t orig m with
    | next m1 =>
      obtain ⟨-, f, -, -, rfl⟩ := iteration_next_inv t orig m m1 hit
      have := ih (retryPath t f orig m)
      rw [retryPath_attempts] at this
      simp only
      omega
    | ret res err m1 =>
      obtain ⟨-, hcase⟩ := iteration_ret_inv t orig m m1 res err hit
      simp only [Exec.trace, Exec.machine]
      rcases hcase with ⟨-, rfl⟩ | ⟨-, f, -, -, rfl⟩
      · rw [attempt_attempts]; omega
      · rw [consult_attempts, attempt_attempts]; omega
    | panics m1 =>
      obtain ⟨-, -, rfl⟩ := iteration_panics_inv t orig m m1 hit
      simp only [Exec.trace, Exec.machine]
      rw [attempt_attempts]; omega

theorem loop_attempts_pos (t : ResilientTransport σ) (orig : List Nat) (fuel : Nat)
    (m : Machine σ) (hfuel : 1 ≤ fuel) : 1 ≤ attempts (loop t orig fuel m).trace := by
  obtain ⟨fuel, rfl⟩ : ∃ n, fuel = n + 1 := ⟨fuel - 1, by omega⟩
  unfold loop
  cases hit : iteration t orig m with
  | next m1 =>
    obtain ⟨-, f, -, -, rfl⟩ := iteration_next_inv t orig m m1 hit
    have := loop_attempts_mono t orig fuel (retryPath t f orig m)
    rw [retryPath_attempts] at this
    simp only
    omega
  | ret res err m1 =>
    obtain ⟨-, hcase⟩ := iteration_ret_inv t orig m m1 res err hit
    simp only [Exec.trace, Exec.machine]
    rcases hcase with ⟨-, rfl⟩ | ⟨-, f, -, -, rfl⟩
    · rw [attempt_attempts]; omega
    · rw [consult_attempts, attempt_attempts]; omega
  | panics m1 =>
    obtain ⟨-, -, rfl⟩ := iteration_panics_inv t orig m m1 hit
    simp only [Exec.trace, Exec.machine]
    rw [attempt_attempts]; omega

/-- C7: if the request has a body and reading it to its end fails with error
`e`, `tries` returns `(nil, e)` at once: its trace holds the read of the body
and nothing else, so neither the underlying `RoundTrip` nor `ShouldRetry`,
`OnRetry` or `Backoff` is called, and the world is untouched.  Conversely, if
the body is nil or reads without error, at least one call of the underlying
`RoundTrip` is made as soon as the loop runs. -/
theorem tries_body_read_failure (t : ResilientTransport σ) (req : Request) (w : σ) :
    (∀ body e, req.Body = some body → (ReadAll body).2 = some e → ∀ fuel,
      ∃ m, tries t fuel req w = Exec.returned none (some e) m ∧
        m.trace = [Event.readAll body] ∧ attempts m.trace = 0 ∧ m.world = w) ∧
    (bufferingSucceeds req → ∀ fuel, 1 ≤ fuel → 1 ≤ attempts (tries t fuel req w).trace) := by
  constructor
  · intro body e hb herr fuel
    refine ⟨start req w, tries_body_err t fuel req w body e hb herr, ?_, start_attempts req w,
      start_world req w⟩
    unfold start; rw [hb]
  · intro hbody fuel hfuel
    rcases tries_of_bufferingSucceeds t fuel req w hbody with ht | ⟨body, ht⟩
    · rw [ht]; exact loop_attempts_pos t (origOf req) fuel _ hfuel
    · rw [ht, runDeferred_attempts]; exact loop_attempts_pos t (origOf req) fuel _ hfuel

theorem tries_body_read_failure_witness :
    (∃ m, tries (sampleTransport 3 (by decide) 5) 4 brokenPost 0 =
        Exec.returned none (some (GoError.plain "unexpected EOF")) m ∧
      m.trace = [Event.readAll ⟨[112, 105], some (GoError.plain "unexpected EOF")⟩] ∧
      attempts m.trace = 0 ∧ m.world = 0) ∧
    1 ≤ attempts (tries (sampleTransport 3 (by decide) 5) 4 samplePost 0).trace :=
  ⟨(tries_body_read_failure (sampleTransport 3 (by decide) 5) brokenPost 0).1 _ _ rfl rfl 4,
    (tries_body_read_failure (sampleTransport 3 (by decide) 5) samplePost 0).2 (by decide) 4
      (by decide)⟩

/-! ### The default retry policy -/

/-- C8: `DefaultRetryPolicy` answers true for every non-nil response whose
status code `s` satisfies `500 ≤ s < 600`, whatever the request and the error. -/
theorem DefaultRetryPolicy_5xx (req : Request) (r : Response) (err : Option GoError)
    (h : 500 ≤ r.StatusCode ∧ r.StatusCode < 600) :
    DefaultRetryPolicy req (some r) err = true := by
  unfold DefaultRetryPolicy
  simp [h.1, h.2]

theorem DefaultRetryPolicy_5xx_witness :
    ((500 : Int) ≤ 503 ∧ (503 : Int) < 600) ∧
      DefaultRetryPolicy samplePost (some { StatusCode := 503, Body := newBufferReader [] })
        (some (GoError.plain "EOF")) = true :=
  ⟨by decide, DefaultRetryPolicy_5xx samplePost { StatusCode := 503, Body := newBufferReader [] }
    (some (GoError.plain "EOF")) (by decide)⟩

/-- C9 fails as stated: on a 404 response that comes with a temporary
`net.Error`, `DefaultRetryPolicy` answers true. -/
theorem DefaultRetryPolicy_4xx_temporary :
    DefaultRetryPolicy samplePost (some { StatusCode := 404, Body := newBufferReader [] })
      (some (GoError.net "connection reset" { Timeout := false, Temporary := true })) = true := by
  decide

/-- C9 (amended): for every request, every non-nil response whose status code
`s` satisfies `400 ≤ s < 500`, and every error that is not a `net.Error` whose
`Temporary()` is true (nil included), `DefaultRetryPolicy` answers false. -/
theorem DefaultRetryPolicy_4xx (req : Request) (r : Response) (err : Option GoError)
    (h : 400 ≤ r.StatusCode ∧ r.StatusCode < 500)
    (herr : ∀ e, asNetError err = some e → e.Temporary = false) :
    DefaultRetryPolicy req (some r) err = false := by
  unfold DefaultRetryPolicy
  have hs : ¬ (r.StatusCode ≥ 500 ∧ r.StatusCode < 600) := by omega
  cases hn : asNetError err with
  | none => simp [hs]
  | some e => simp [hs, herr e hn]

theorem DefaultRetryPolicy_4xx_witness :
    DefaultRetryPolicy samplePost (some { StatusCode := 404, Body := newBufferReader [] })
      (some (GoError.net "i/o timeout" { Timeout := true, Temporary := false })) = false :=
  DefaultRetryPolicy_4xx samplePost { StatusCode := 404, Body := newBufferReader [] }
    (some (GoError.net "i/o timeout" { Timeout := true, Temporary := false })) (by decide)
    (by intro e he; cases he; rfl)

/-- C10: `DefaultRetryPolicy(req, res, err)` answers true exactly when `err` is
a `net.Error` whose `Temporary()` is true or `res` is non-nil with a status code
in `[500, 600)`.  In particular it answers false on `(nil, nil)`, on an error
that is not a `net.Error` without a 5xx response, and on a `net.Error` that is
not temporary (a timeout included) without a 5xx response; being a total
function, it answers on a nil response and on a nil error. -/
theorem DefaultRetryPolicy_iff (req : Request) (res : Option Response) (err : Option GoError) :
    (DefaultRetryPolicy req res err = true ↔
      ((∃ e, asNetError err = some e ∧ e.Temporary = true) ∨
        (∃ r, res = some r ∧ 500 ≤ r.StatusCode ∧ r.StatusCode < 600))) ∧
    DefaultRetryPolicy req none none = false ∧
    (∀ msg, DefaultRetryPolicy req none (some (GoError.plain msg)) = false) ∧
    (∀ msg timeout,
      DefaultRetryPolicy req none (some (GoError.net msg ⟨timeout, false⟩)) = false) ∧
    (∀ msg timeout,
      DefaultRetryPolicy req none (some (GoError.net msg ⟨timeout, true⟩)) = true) := by
  refine ⟨?_, rfl, fun _ => rfl, fun _ _ => rfl, fun _ _ => rfl⟩
  unfold DefaultRetryPolicy
  cases hn : asNetError err with
  | none =>
    cases res with
    | none => simp
    | some r => by_cases hs : r.StatusCode ≥ 500 ∧ r.StatusCode < 600 <;> simp [hs]
  | some e =>
    cases res with
    | none => cases ht : e.Temporary <;> simp [ht]
    | some r =>
      by_cases hs : r.StatusCode ≥ 500 ∧ r.StatusCode < 600 <;>
        cases ht : e.Temporary <;> simp [hs, ht]

/-! ### Timeouts under the default policy -/

/-- C11 fails as stated: on a `net.Error` whose `Timeout()` is true and whose
`Temporary()` is false, with no response, `DefaultRetryPolicy` answers false. -/
theorem DefaultRetryPolicy_timeout_not_temporary :
    DefaultRetryPolicy samplePost none
      (some (GoError.net "i/o timeout" { Timeout := true, Temporary := false })) = false := by
  decide

/-- C11 (amended): on a `net.Error` whose `Timeout()` and `Temporary()` are both
true, with no response, `DefaultRetryPolicy` answers true; hence with
`MaxTries = 3` and the default policy, a request every attempt of which ends in
such an error is attempted exactly 3 times and the caller receives the timeout
error of the third attempt. -/
theorem DefaultRetryPolicy_temporary_timeout (t : ResilientTransport σ)
    (h3 : t.MaxTries = 3) (hf : t.ShouldRetry = some DefaultRetryPolicyFunc)
    (htimeout : ∀ rq w, (t.transport rq w).res = none ∧
      ∃ msg, (t.transport rq w).err = some (GoError.net msg ⟨true, true⟩))
    (req : Request) (w : σ) (hbody : bufferingSucceeds req) (fuel : Nat) (hfuel : 3 ≤ fuel) :
    (∀ rq msg, DefaultRetryPolicy rq none (some (GoError.net msg ⟨true, true⟩)) = true) ∧
    ∃ msg m, tries t fuel req w =
        Exec.returned none (some (GoError.net msg ⟨true, true⟩)) m ∧
      attempts m.trace = 3 := by
  have hpol : ∀ rq msg,
      DefaultRetryPolicy rq none (some (GoError.net msg ⟨true, true⟩)) = true :=
    fun _ _ => rfl
  refine ⟨hpol, ?_⟩
  have hverdict : ∀ m : Machine σ,
      verdictAt t DefaultRetryPolicyFunc (origOf req) m = true := by
    intro m
    obtain ⟨hres, msg, herr⟩ := htimeout (installBody (origOf req) m.req) m.world
    simp only [verdictAt, consult, attempt, DefaultRetryPolicyFunc, hres, herr]
    exact hpol _ msg
  obtain ⟨m, hm, hcount⟩ := loop_stops t DefaultRetryPolicyFunc hf (origOf req) 2
    (start req w) fuel (by rw [start_try]) (by rw [start_try, h3]; norm_num)
    (fun i _ => hverdict _) (Or.inr (by rw [start_try, h3]; norm_num)) (by omega)
  obtain ⟨m1, hm1, hc1⟩ := tries_returned_of_loop t fuel req w hbody _ _ m hm
  obtain ⟨hres, msg, herr⟩ := htimeout
    (installBody (origOf req)
      (startOf t DefaultRetryPolicyFunc (origOf req) (start req w) 2).req)
    (startOf t DefaultRetryPolicyFunc (origOf req) (start req w) 2).world
  refine ⟨msg, m1, ?_, ?_⟩
  · rw [hm1]
    simp only [outcomeAt, attempt, hres, herr]
  · rw [hc1, hcount, start_attempts]

theorem DefaultRetryPolicy_temporary_timeout_witness :
    (∀ rq msg, DefaultRetryPolicy rq none (some (GoError.net msg ⟨true, true⟩)) = true) ∧
    ∃ msg m, tries timeoutTransport 3 samplePost 0 =
        Exec.returned none (some (GoError.net msg ⟨true, true⟩)) m ∧
      attempts m.trace = 3 :=
  DefaultRetryPolicy_temporary_timeout timeoutTransport rfl rfl
    (fun _ _ => ⟨rfl, "i/o timeout", rfl⟩) samplePost 0 (by decide) 3 (by decide)

/-! ### The backoff functions -/

/-- C12 fails as stated: `ExponentialBackoff(37)` is not `100ms * 2^37`; the
product does not fit an `int64` and wraps to a negative duration, which is not
twice `ExponentialBackoff(36)` either. -/
theorem ExponentialBackoff_overflow :
    ExponentialBackoff minInt 37 ≠ 100000000 * 2 ^ 37 ∧
      ExponentialBackoff minInt 37 < 0 ∧
      ExponentialBackoff minInt 37 ≠ 2 * ExponentialBackoff minInt 36 := by
  decide

/-- C12 (amended): for every attempt number `k` with `1 ≤ k ≤ 36`,
`ExponentialBackoff(k)` is `100_000_000 * 2^k` nanoseconds, with no cap in that
range: below 36 the value for `k + 1` is exactly twice the value for `k`. -/
theorem ExponentialBackoff_eq (c : Int) (k : Int) (h1 : 1 ≤ k) (h36 : k ≤ 36) :
    ExponentialBackoff c k = 100000000 * 2 ^ k.toNat ∧
      (k < 36 → ExponentialBackoff c (k + 1) = 2 * ExponentialBackoff c k) := by
  have key : ∀ j : Int, 1 ≤ j → j ≤ 36 → ExponentialBackoff c j = 100000000 * 2 ^ j.toNat := by
    intro j hj1 hj36
    have hpow : (2 : Int) ^ j.toNat ≤ 2 ^ 36 :=
      pow_le_pow_right₀ (by norm_num) (by omega)
    have hpos : (0 : Int) < 2 ^ j.toNat := by positivity
    unfold ExponentialBackoff exp2Duration Millisecond
    rw [if_neg (by omega), if_pos (by omega)]
    rw [wrapInt_of_range _ (by unfold minInt; omega) (by unfold maxInt; omega)]
    norm_num
  refine ⟨key k h1 h36, fun hlt => ?_⟩
  rw [key (k + 1) (by omega) (by omega), key k h1 h36]
  have : (k + 1).toNat = k.toNat + 1 := by omega
  rw [this, pow_succ]
  ring

theorem ExponentialBackoff_eq_witness :
    ExponentialBackoff minInt 3 = 100000000 * 2 ^ (3 : Int).toNat ∧
      ((3 : Int) < 36 → ExponentialBackoff minInt (3 + 1) = 2 * ExponentialBackoff minInt 3) :=
  ExponentialBackoff_eq minInt 3 (by decide) (by decide)

/-- C13 fails as stated: `LinearBackoff(92233720369)` is not
`100_000_000 * 92233720369` nanoseconds; the product does not fit an `int64`
and wraps to a negative duration. -/
theorem LinearBackoff_overflow :
    LinearBackoff 92233720369 ≠ 100000000 * 92233720369 ∧ LinearBackoff 92233720369 < 0 := by
  decide

/-- C13 (amended): for every attempt number `k` with `1 ≤ k ≤ 92233720368`,
`LinearBackoff(k)` is `100_000_000 * k` nanoseconds. -/
theorem LinearBackoff_eq (k : Int) (h1 : 1 ≤ k) (hk : k ≤ 92233720368) :
    LinearBackoff k = 100000000 * k := by
  unfold LinearBackoff Millisecond
  rw [wrapInt_of_range (k * 100) (by unfold minInt; omega) (by unfold maxInt; omega)]
  rw [wrapInt_of_range _ (by unfold minInt; omega) (by unfold maxInt; omega)]
  ring

theorem LinearBackoff_eq_witness : LinearBackoff 3 = 100000000 * 3 :=
  LinearBackoff_eq 3 (by decide) (by decide)

/-! ### Optional policies -/

theorem runDeferred_panicked (body : ReadCloser) (e : Exec σ) (m : Machine σ)
    (h : runDeferred body e = Exec.panicked m) : ∃ m1, e = Exec.panicked m1 := by
  cases e with
  | returned r e1 m1 => simp [runDeferred] at h
  | panicked m1 => exact ⟨m1, rfl⟩
  | running m1 => simp [runDeferred] at h

/-- When buffering succeeds and `tries` returns, it returns the pair of the
latest call of `RoundTrip`. -/
theorem tries_returned_last (t : ResilientTransport σ) (fuel : Nat) (req : Request) (w : σ)
    (hbody : bufferingSucceeds req) (res : Option Response) (err : Option GoError)
    (m : Machine σ) (h : tries t fuel req w = Exec.returned res err m) :
    lastOutcome m.trace = some (res, err) := by
  rcases tries_of_bufferingSucceeds t fuel req w hbody with ht | ⟨body, ht⟩
  · rw [ht] at h
    exact loop_returns_last t (origOf req) fuel _ m res err h
  · rw [ht] at h
    obtain ⟨m1, hm1, rfl⟩ := runDeferred_returned body _ res err m h
    have := loop_returns_last t (origOf req) fuel _ m1 res err hm1
    simp only [Machine.emit]
    rw [lastOutcome_snoc_other _ (Event.closeRequestBody body) rfl, this]

/-- With `MaxTries = 1` the loop entered by `tries` returns in its first
iteration, whatever the policies are. -/
theorem loop_single_try (t : ResilientTransport σ) (h1 : t.MaxTries = 1) (req : Request)
    (w : σ) (fuel : Nat) :
    loop t (origOf req) (fuel + 1) (start req w) =
      Exec.returned (outcomeAt t (origOf req) (start req w)).1
        (outcomeAt t (origOf req) (start req w)).2 (attempt t (origOf req) (start req w)).2 := by
  unfold loop
  rw [iteration_at_max t (origOf req) (start req w) (by rw [start_try, h1])]

/-- C17 fails as stated: with `MaxTries = 3` and no `ShouldRetry`, `tries`
panics on the nil function after its first attempt. -/
theorem tries_nil_policy_panics :
    ∃ m, tries (policylessTransport 3 (by decide) 0) 5 samplePost 0 = Exec.panicked m ∧
      attempts m.trace = 1 :=
  ⟨_, rfl, by decide⟩

/-- C17 (amended): `Backoff` and `OnRetry` are optional, and `ShouldRetry` is
when `MaxTries = 1`: for every transport with `MaxTries ≥ 1` whose
`ShouldRetry` is non-nil or whose `MaxTries` is 1, whatever `Backoff` and
`OnRetry` are (nil included), and every request whose body, if any, is buffered
without error, `tries` never panics and, once it has run for `MaxTries`
iterations, has returned the outcome of an attempt. -/
theorem tries_optional_policies (t : ResilientTransport σ) (hN : 1 ≤ t.MaxTries)
    (hpol : t.ShouldRetry ≠ none ∨ t.MaxTries = 1) (req : Request) (w : σ)
    (hbody : bufferingSucceeds req) :
    (∀ fuel m, tries t fuel req w ≠ Exec.panicked m) ∧
    (∀ fuel : Nat, t.MaxTries ≤ fuel →
      ∃ res err m, tries t fuel req w = Exec.returned res err m ∧
        lastOutcome m.trace = some (res, err)) := by
  have hnopanic : ∀ fuel m, loop t (origOf req) fuel (start req w) ≠ Exec.panicked m := by
    intro fuel m
    cases hs : t.ShouldRetry with
    | some f => exact loop_no_panic t f hs (origOf req) fuel _ m
    | none =>
      have h1 : t.MaxTries = 1 := by
        rcases hpol with h | h
        · exact absurd hs h
        · exact h
      cases fuel with
      | zero => simp [loop]
      | succ fuel => rw [loop_single_try t h1 req w fuel]; simp
  have hret : ∀ fuel : Nat, t.MaxTries ≤ fuel →
      ∃ res err m, loop t (origOf req) fuel (start req w) = Exec.returned res err m := by
    intro fuel hfuel
    cases hs : t.ShouldRetry with
    | some f => exact loop_returns t f hs hN req w fuel hfuel
    | none =>
      have h1 : t.MaxTries = 1 := by
        rcases hpol with h | h
        · exact absurd hs h
        · exact h
      obtain ⟨n, rfl⟩ : ∃ n, fuel = n + 1 := ⟨fuel - 1, by omega⟩
      exact ⟨_, _, _, loop_single_try t h1 req w n⟩
  constructor
  · intro fuel m h
    rcases tries_of_bufferingSucceeds t fuel req w hbody with ht | ⟨body, ht⟩
    · rw [ht] at h
      exact hnopanic fuel m h
    · rw [ht] at h
      obtain ⟨m1, hm1⟩ := runDeferred_panicked body _ m h
      exact hnopanic fuel m1 hm1
  · intro fuel hfuel
    obtain ⟨res, err, m, hm⟩ := hret fuel hfuel
    obtain ⟨m1, hm1, -⟩ := tries_returned_of_loop t fuel req w hbody res err m hm
    exact ⟨res, err, m1, hm1, tries_returned_last t fuel req w hbody res err m1 hm1⟩

theorem tries_optional_policies_witness :
    (∀ fuel m, tries (policylessTransport 1 (by decide) 3) fuel samplePost 0 ≠
      Exec.panicked m) ∧
    ∃ res err m, tries (policylessTransport 1 (by decide) 3) 1 samplePost 0 =
        Exec.returned res err m ∧
      lastOutcome m.trace = some (res, err) :=
  have h := tries_optional_policies (policylessTransport 1 (by decide) 3) (by decide)
    (Or.inr rfl) samplePost 0 (by decide)
  ⟨h.1, h.2 1 (by decide)⟩

/-! ### The loop counter once it wraps -/

theorem wrapInt_succ (x : Int) : wrapInt (wrapInt x + 1) = wrapInt (x + 1) := by
  unfold wrapInt
  omega

theorem startOf_try (t : ResilientTransport σ) (f : RetryPolicyFunc σ) (orig : List Nat)
    (m0 : Machine σ) (h : wrapInt m0.try_ = m0.try_) :
    ∀ i : Nat, (startOf t f orig m0 i).try_ = wrapInt (m0.try_ + i) := by
  intro i
  induction i with
  | zero => simpa using h.symm
  | succ i ih =>
    show (retryPath t f orig (startOf t f orig m0 i)).try_ = _
    rw [retryPath_try, ih, wrapInt_succ]
    push_cast
    rw [add_assoc]

theorem startOf_attempts (t : ResilientTransport σ) (f : RetryPolicyFunc σ) (orig : List Nat)
    (m0 : Machine σ) :
    ∀ i : Nat, attempts (startOf t f orig m0 i).trace = attempts m0.trace + i := by
  intro i
  induction i with
  | zero => rfl
  | succ i ih =>
    show attempts (retryPath t f orig (startOf t f orig m0 i)).trace = _
    rw [retryPath_attempts, ih]
    omega

/-- While the counter differs from `MaxTries` and the policy asks for a retry,
the loop goes on to the next attempt. -/
theorem loop_unroll (t : ResilientTransport σ) (f : RetryPolicyFunc σ)
    (hf : t.ShouldRetry = some f) (orig : List Nat) :
    ∀ (j : Nat) (m0 : Machine σ) (fuel : Nat),
      (∀ i, i < j → (startOf t f orig m0 i).try_ ≠ t.MaxTries ∧
        verdictAt t f orig (startOf t f orig m0 i) = true) →
      loop t orig (j + fuel) m0 = loop t orig fuel (startOf t f orig m0 j) := by
  intro j
  induction j with
  | zero => intro m0 fuel _; simp [startOf]
  | succ j ih =>
    intro m0 fuel h
    have h0 := h 0 (Nat.succ_pos j)
    have hstep : loop t orig (j + fuel + 1) m0 = loop t orig (j + fuel) (retryPath t f orig m0) := by
      conv_lhs => unfold loop
      rw [iteration_retried t f orig m0 h0.1 hf h0.2]
    have : j + 1 + fuel = j + fuel + 1 := by omega
    rw [this, hstep, ih (retryPath t f orig m0) fuel
      (fun i hi => by rw [← startOf_succ_left]; exact h (i + 1) (by omega)),
      ← startOf_succ_left]

theorem loop_attempts_succ (t : ResilientTransport σ) (orig : List Nat) (fuel : Nat)
    (m : Machine σ) (hfuel : 1 ≤ fuel) :
    attempts m.trace + 1 ≤ attempts (loop t orig fuel m).trace := by
  obtain ⟨fuel, rfl⟩ : ∃ n, fuel = n + 1 := ⟨fuel - 1, by omega⟩
  unfold loop
  cases hit : iteration t orig m with
  | next m1 =>
    obtain ⟨-, f, -, -, rfl⟩ := iteration_next_inv t orig m m1 hit
    have := loop_attempts_mono t orig fuel (retryPath t f orig m)
    rw [retryPath_attempts] at this
    simpa using this
  | ret res err m1 =>
    obtain ⟨-, hcase⟩ := iteration_ret_inv t orig m m1 res err hit
    simp only [Exec.trace, Exec.machine]
    rcases hcase with ⟨-, rfl⟩ | ⟨-, f, -, -, rfl⟩
    · rw [attempt_attempts]
    · rw [consult_attempts, attempt_attempts]
  | panics m1 =>
    obtain ⟨-, -, rfl⟩ := iteration_panics_inv t orig m m1 hit
    simp only [Exec.trace, Exec.machine]
    rw [attempt_attempts]

/-- Attempt number `i + 1` of a run of `tries` is made with `try` the Go `int`
that `1 + i` wraps to. -/
theorem start_startOf_try (t : ResilientTransport σ) (f : RetryPolicyFunc σ) (req : Request)
    (w : σ) (i : Nat) :
    (startOf t f (origOf req) (start req w) i).try_ = wrapInt (1 + i) := by
  rw [startOf_try t f (origOf req) (start req w) (by rw [start_try]; decide) i, start_try]

/-- With `MaxTries ≤ 0` the counter first equals `MaxTries` at attempt number
`2^64 + MaxTries`. -/
theorem wrapInt_ne_nonpositive (N : Int) (h0 : N ≤ 0) (hmin : minInt ≤ N) (i : Nat)
    (hi : (i : Int) + 1 < 2 ^ 64 + N) : wrapInt (1 + i) ≠ N := by
  unfold wrapInt
  unfold minInt at hmin
  omega

/-- The attempts of a run of `tries`, whatever the body of the request. -/
theorem tries_attempts_of_loop (t : ResilientTransport σ) (fuel : Nat) (req : Request) (w : σ)
    (hbody : bufferingSucceeds req) :
    attempts (tries t fuel req w).trace =
      attempts (loop t (origOf req) fuel (start req w)).trace := by
  rcases tries_of_bufferingSucceeds t fuel req w hbody with ht | ⟨body, ht⟩
  · rw [ht]
  · rw [ht, runDeferred_attempts]

theorem tries_running_of_loop (t : ResilientTransport σ) (fuel : Nat) (req : Request) (w : σ)
    (hbody : bufferingSucceeds req) (m : Machine σ)
    (h : loop t (origOf req) fuel (start req w) = Exec.running m) :
    tries t fuel req w = Exec.running m := by
  rcases tries_of_bufferingSucceeds t fuel req w hbody with ht | ⟨body, ht⟩
  · rw [ht, h]
  · rw [ht, h]; rfl

/-- The loop returns at the first attempt made with `try = MaxTries` or refused
by the policy. -/
theorem loop_returns_at (t : ResilientTransport σ) (f : RetryPolicyFunc σ)
    (hf : t.ShouldRetry = some f) (orig : List Nat) (j : Nat) (m0 : Machine σ) (fuel : Nat)
    (h : ∀ i, i < j → (startOf t f orig m0 i).try_ ≠ t.MaxTries ∧
      verdictAt t f orig (startOf t f orig m0 i) = true)
    (hstop : (startOf t f orig m0 j).try_ = t.MaxTries ∨
      verdictAt t f orig (startOf t f orig m0 j) = false)
    (hfuel : j + 1 ≤ fuel) :
    ∃ m, loop t orig fuel m0 =
        Exec.returned (outcomeAt t orig (startOf t f orig m0 j)).1
          (outcomeAt t orig (startOf t f orig m0 j)).2 m ∧
      attempts m.trace = attempts m0.trace + j + 1 := by
  obtain ⟨n, rfl⟩ : ∃ n, fuel = j + (n + 1) := ⟨fuel - j - 1, by omega⟩
  rw [loop_unroll t f hf orig j m0 (n + 1) h]
  unfold loop
  by_cases hmax : (startOf t f orig m0 j).try_ = t.MaxTries
  · rw [iteration_at_max t orig _ hmax]
    exact ⟨_, rfl, by rw [attempt_attempts, startOf_attempts]⟩
  · have hv : verdictAt t f orig (startOf t f orig m0 j) = false := by
      rcases hstop with h1 | h1
      · exact absurd h1 hmax
      · exact h1
    rw [iteration_refused t f orig _ hmax hf hv]
    exact ⟨_, rfl, by rw [consult_attempts, attempt_attempts, startOf_attempts]⟩

/-- C19 fails as stated: with `MaxTries = 0` and a policy that always asks for a
retry, the counter wraps round to 0 and `tries` returns, after `2^64` attempts. -/
theorem tries_zero_MaxTries_returns :
    ∃ res err m, tries (insistentTransport 0 (by decide)) (2 ^ 64) samplePost 0 =
        Exec.returned res err m ∧
      attempts m.trace = 2 ^ 64 := by
  obtain ⟨m, hm, hcount⟩ := loop_returns_at (insistentTransport 0 (by decide)) alwaysRetry rfl
    (origOf samplePost) (2 ^ 64 - 1) (start samplePost 0) (2 ^ 64)
    (by
      intro i hi
      refine ⟨?_, rfl⟩
      rw [start_startOf_try]
      exact wrapInt_ne_nonpositive 0 (le_refl 0) (by decide) i (by push_cast; omega))
    (Or.inl (by
      rw [start_startOf_try]
      show wrapInt _ = 0
      unfold wrapInt
      norm_num))
    (by norm_num)
  obtain ⟨m1, hm1, hc1⟩ := tries_returned_of_loop (insistentTransport 0 (by decide)) (2 ^ 64)
    samplePost 0 (by decide) _ _ m hm
  refine ⟨_, _, m1, hm1, ?_⟩
  rw [hc1, hcount, start_attempts]
  norm_num

/-- C19 (amended): with `MaxTries ≤ 0` the bound is not enforced until the
counter has wrapped round: for every `k ≥ 1` with `k < 2^64 + MaxTries`, if
`ShouldRetry` answers true on the outcomes of the first `k` attempts, `tries`
makes at least `k + 1` attempts; so with a policy that always asks for a retry
`tries` is still in its loop after any number of iterations below
`2^64 + MaxTries`, each of which made an attempt. -/
theorem tries_nonpositive_MaxTries (t : ResilientTransport σ) (f : RetryPolicyFunc σ)
    (hf : t.ShouldRetry = some f) (h0 : t.MaxTries ≤ 0) (req : Request) (w : σ)
    (hbody : bufferingSucceeds req) :
    (∀ k : Nat, 1 ≤ k → (k : Int) < 2 ^ 64 + t.MaxTries →
      (∀ i, i < k →
        verdictAt t f (origOf req) (startOf t f (origOf req) (start req w) i) = true) →
      ∀ fuel, k + 1 ≤ fuel → k + 1 ≤ attempts (tries t fuel req w).trace) ∧
    ((∀ i, verdictAt t f (origOf req) (startOf t f (origOf req) (start req w) i) = true) →
      ∀ fuel : Nat, (fuel : Int) < 2 ^ 64 + t.MaxTries →
        ∃ m, tries t fuel req w = Exec.running m ∧ attempts m.trace = fuel) := by
  have hne : ∀ i : Nat, (i : Int) + 1 < 2 ^ 64 + t.MaxTries →
      (startOf t f (origOf req) (start req w) i).try_ ≠ t.MaxTries := by
    intro i hi
    rw [start_startOf_try]
    exact wrapInt_ne_nonpositive t.MaxTries h0 t.MaxTries_range.1 i hi
  constructor
  · intro k _ hk htrue fuel hfuel
    obtain ⟨n, rfl⟩ : ∃ n, fuel = k + (n + 1) := ⟨fuel - k - 1, by omega⟩
    rw [tries_attempts_of_loop t _ req w hbody,
      loop_unroll t f hf (origOf req) k (start req w) (n + 1)
        (fun i hi => ⟨hne i (by omega), htrue i hi⟩)]
    have := loop_attempts_succ t (origOf req) (n + 1)
      (startOf t f (origOf req) (start req w) k) (by omega)
    rw [startOf_attempts, start_attempts] at this
    omega
  · intro htrue fuel hfuel
    have hrun : loop t (origOf req) fuel (start req w) =
        Exec.running (startOf t f (origOf req) (start req w) fuel) := by
      have := loop_unroll t f hf (origOf req) fuel (start req w) 0
        (fun i hi => ⟨hne i (by omega), htrue i⟩)
      rw [Nat.add_zero] at this
      rw [this]
      rfl
    refine ⟨_, tries_running_of_loop t fuel req w hbody _ hrun, ?_⟩
    rw [startOf_attempts, start_attempts, Nat.zero_add]

theorem tries_nonpositive_MaxTries_witness :
    (3 + 1 ≤ attempts (tries (insistentTransport 0 (by decide)) 5 samplePost 0).trace) ∧
    ∃ m, tries (insistentTransport 0 (by decide)) 5 samplePost 0 = Exec.running m ∧
      attempts m.trace = 5 :=
  have h := tries_nonpositive_MaxTries (insistentTransport 0 (by decide)) alwaysRetry rfl
    (by decide) samplePost 0 (by decide)
  ⟨h.1 3 (by decide) (by decide) (fun _ _ => rfl) 5 (by decide),
    h.2 (fun _ => rfl) 5 (by decide)⟩

/-! ### Reading a trace piecewise -/

theorem outcomes_append (a b : List Event) : outcomes (a ++ b) = outcomes a ++ outcomes b := by
  induction a with
  | nil => rfl
  | cons e a ih => cases e <;> simp [outcomes, ih]

theorem consulted_append (a b : List Event) :
    consulted (a ++ b) = consulted a ++ consulted b := by
  induction a with
  | nil => rfl
  | cons e a ih => cases e <;> simp [consulted, ih]

theorem observed_append (a b : List Event) : observed (a ++ b) = observed a ++ observed b := by
  induction a with
  | nil => rfl
  | cons e a ih => cases e <;> simp [observed, ih]

theorem closed_append (a b : List Event) : closed (a ++ b) = closed a ++ closed b := by
  induction a with
  | nil => rfl
  | cons e a ih => cases e <;> simp [closed, ih]

theorem sleeps_append (a b : List Event) : sleeps (a ++ b) = sleeps a ++ sleeps b := by
  induction a with
  | nil => rfl
  | cons e a ih => cases e <;> simp [sleeps, ih]

theorem requestsShown_append (a b : List Event) :
    requestsShown (a ++ b) = requestsShown a ++ requestsShown b := by
  induction a with
  | nil => rfl
  | cons e a ih => cases e <;> simp [requestsShown, ih]

theorem attempts_eq_length_outcomes (l : List Event) : attempts l = (outcomes l).length := by
  induction l with
  | nil => rfl
  | cons e l ih =>
    cases e <;> simp [attempts, outcomes, Event.isRoundTrip, List.countP_cons] <;>
      simpa [attempts] using ih

theorem follows_append (o b : Bool) (s : Stage) (l1 l2 : List Event) :
    follows o b s (l1 ++ l2) =
      match follows o b s l1 with
      | some s1 => follows o b s1 l2
      | none => none := by
  induction l1 generalizing s with
  | nil => rfl
  | cons e l1 ih =>
    simp only [List.cons_append, follows]
    cases advance o b s e with
    | none => rfl
    | some s1 => exact ih s1

/-! ### The events of one retried iteration -/

theorem retry_trace_eq (t : ResilientTransport σ) (r : RoundTripResult σ) (m : Machine σ) :
    (retry t r m).trace = m.trace ++
      (match t.OnRetry with
        | some _ => [Event.onRetry m.req r.res r.err m.try_]
        | none => []) ++
      (match r.res with
        | some res => [Event.closeResponseBody res]
        | none => []) ++
      (match t.Backoff with
        | some b => [Event.sleep (b m.try_ (notify t r m).world).1]
        | none => []) := by
  obtain ⟨res, err, n, w⟩ := r
  unfold retry increment backoff release notify Machine.emit
  cases t.OnRetry <;> cases res <;> cases t.Backoff <;> simp

theorem retryPath_trace_eq (t : ResilientTransport σ) (f : RetryPolicyFunc σ) (orig : List Nat)
    (m : Machine σ) :
    (retryPath t f orig m).trace = m.trace ++ retryEvents t f orig m := by
  unfold retryPath retryEvents
  rw [retry_trace_eq, consult_trace, attempt_trace]
  simp only [consult_try, attempt_try, List.append_assoc, List.singleton_append,
    List.cons_append, List.nil_append]
  rfl

theorem startOf_trace_succ (t : ResilientTransport σ) (f : RetryPolicyFunc σ) (orig : List Nat)
    (m0 : Machine σ) (i : Nat) :
    (startOf t f orig m0 (i + 1)).trace =
      (startOf t f orig m0 i).trace ++ retryEvents t f orig (startOf t f orig m0 i) :=
  retryPath_trace_eq t f orig (startOf t f orig m0 i)

theorem outcomes_retryEvents (t : ResilientTransport σ) (f : RetryPolicyFunc σ)
    (orig : List Nat) (m : Machine σ) :
    outcomes (retryEvents t f orig m) =
      [(m.try_, (outcomeAt t orig m).1, (outcomeAt t orig m).2)] := by
  unfold retryEvents
  cases t.OnRetry <;> cases hres : (attempt t orig m).1.res <;> cases t.Backoff <;>
    simp [outcomes, outcomes_append, outcomeAt, hres]

theorem consulted_retryEvents (t : ResilientTransport σ) (f : RetryPolicyFunc σ)
    (orig : List Nat) (m : Machine σ) :
    consulted (retryEvents t f orig m) = [outcomeAt t orig m] := by
  unfold retryEvents
  cases t.OnRetry <;> cases hres : (attempt t orig m).1.res <;> cases t.Backoff <;>
    simp [consulted, consulted_append, outcomeAt, hres]

theorem observed_retryEvents (t : ResilientTransport σ) (f : RetryPolicyFunc σ)
    (orig : List Nat) (m : Machine σ) :
    observed (retryEvents t f orig m) =
      match t.OnRetry with
      | some _ => [((outcomeAt t orig m).1, (outcomeAt t orig m).2, m.try_)]
      | none => [] := by
  unfold retryEvents
  cases t.OnRetry <;> cases hres : (attempt t orig m).1.res <;> cases t.Backoff <;>
    simp [observed, observed_append, outcomeAt, hres]

theorem closed_retryEvents (t : ResilientTransport σ) (f : RetryPolicyFunc σ)
    (orig : List Nat) (m : Machine σ) :
    closed (retryEvents t f orig m) = (outcomeAt t orig m).1.toList := by
  unfold retryEvents
  cases t.OnRetry <;> cases hres : (attempt t orig m).1.res <;> cases t.Backoff <;>
    simp [closed, closed_append, outcomeAt, hres]

theorem sleeps_retryEvents (t : ResilientTransport σ) (f : RetryPolicyFunc σ)
    (orig : List Nat) (m : Machine σ) :
    sleeps (retryEvents t f orig m) =
      match t.Backoff with
      | some b => [(b m.try_ (notify t (attempt t orig m).1
          (consult f (attempt t orig m).1 (attempt t orig m).2).2).world).1]
      | none => [] := by
  unfold retryEvents
  cases t.OnRetry <;> cases hres : (attempt t orig m).1.res <;> cases t.Backoff <;>
    simp [sleeps, sleeps_append, hres]

theorem requestsShown_retryEvents (t : ResilientTransport σ) (f : RetryPolicyFunc σ)
    (orig : List Nat) (m : Machine σ) :
    ∀ rq ∈ requestsShown (retryEvents t f orig m), rq = (attempt t orig m).2.req := by
  unfold retryEvents
  cases t.OnRetry <;> cases hres : (attempt t orig m).1.res <;> cases t.Backoff <;>
    simp [requestsShown, requestsShown_append, hres]

theorem follows_retryEvents (t : ResilientTransport σ) (f : RetryPolicyFunc σ)
    (orig : List Nat) (m : Machine σ) (hv : verdictAt t f orig m = true) (s : Stage)
    (hs : s = Stage.entered ∨ s = Stage.ready) :
    follows t.OnRetry.isSome t.Backoff.isSome s (retryEvents t f orig m) = some Stage.ready := by
  unfold verdictAt at hv
  unfold retryEvents
  rcases hs with rfl | rfl <;>
    cases t.OnRetry <;> cases hres : (attempt t orig m).1.res <;> cases t.Backoff <;>
      simp [follows, advance, hv, hres, Stage.afterVerdict, Stage.afterObserver, Stage.afterRelease]

/-! ### The shape of a run -/

/-- With a non-nil policy, a run of the loop is a number `j` of retried
iterations, after which the fuel is spent, or the attempt made with
`try = MaxTries` returns, or the policy refuses a retry. -/
theorem loop_shape (t : ResilientTransport σ) (f : RetryPolicyFunc σ)
    (hf : t.ShouldRetry = some f) (orig : List Nat) :
    ∀ (fuel : Nat) (m0 : Machine σ), ∃ j, j ≤ fuel ∧
      (∀ i, i < j → (startOf t f orig m0 i).try_ ≠ t.MaxTries ∧
        verdictAt t f orig (startOf t f orig m0 i) = true) ∧
      ((j = fuel ∧ loop t orig fuel m0 = Exec.running (startOf t f orig m0 j)) ∨
       (j < fuel ∧ (startOf t f orig m0 j).try_ = t.MaxTries ∧
          loop t orig fuel m0 =
            Exec.returned (outcomeAt t orig (startOf t f orig m0 j)).1
              (outcomeAt t orig (startOf t f orig m0 j)).2
              (attempt t orig (startOf t f orig m0 j)).2) ∨
       (j < fuel ∧ (startOf t f orig m0 j).try_ ≠ t.MaxTries ∧
          verdictAt t f orig (startOf t f orig m0 j) = false ∧
          loop t orig fuel m0 =
            Exec.returned (outcomeAt t orig (startOf t f orig m0 j)).1
              (outcomeAt t orig (startOf t f orig m0 j)).2
              (consult f (attempt t orig (startOf t f orig m0 j)).1
                (attempt t orig (startOf t f orig m0 j)).2).2)) := by
  intro fuel
  induction fuel with
  | zero =>
    intro m0
    exact ⟨0, le_refl 0, fun i hi => absurd hi (Nat.not_lt_zero i), Or.inl ⟨rfl, rfl⟩⟩
  | succ fuel ih =>
    intro m0
    by_cases hmax : m0.try_ = t.MaxTries
    · refine ⟨0, Nat.zero_le _, fun i hi => absurd hi (Nat.not_lt_zero i),
        Or.inr (Or.inl ⟨Nat.succ_pos fuel, hmax, ?_⟩)⟩
      unfold loop
      rw [iteration_at_max t orig m0 hmax]
      rfl
    · cases hv : verdictAt t f orig m0 with
      | false =>
        refine ⟨0, Nat.zero_le _, fun i hi => absurd hi (Nat.not_lt_zero i),
          Or.inr (Or.inr ⟨Nat.succ_pos fuel, hmax, hv, ?_⟩)⟩
        unfold loop
        rw [iteration_refused t f orig m0 hmax hf hv]
        rfl
      | true =>
        have hstep : loop t orig (fuel + 1) m0 = loop t orig fuel (retryPath t f orig m0) := by
          conv_lhs => unfold loop
          rw [iteration_retried t f orig m0 hmax hf hv]
        obtain ⟨j, hj, hall, hcase⟩ := ih (retryPath t f orig m0)
        refine ⟨j + 1, by omega, ?_, ?_⟩
        · intro i hi
          cases i with
          | zero => exact ⟨hmax, hv⟩
          | succ i =>
            rw [startOf_succ_left]
            exact hall i (by omega)
        · rw [hstep, startOf_succ_left]
          rcases hcase with ⟨h1, h2⟩ | ⟨h1, h2, h3⟩ | ⟨h1, h2, h3, h4⟩
          · exact Or.inl ⟨by omega, h2⟩
          · exact Or.inr (Or.inl ⟨by omega, h2, h3⟩)
          · exact Or.inr (Or.inr ⟨by omega, h2, h3, h4⟩)

/-- Without a policy, a run of the loop is over after one attempt: it returns
if `try = MaxTries` and panics otherwise. -/
theorem loop_shape_nil (t : ResilientTransport σ) (hf : t.ShouldRetry = none) (orig : List Nat)
    (fuel : Nat) (m0 : Machine σ) :
    (m0.try_ = t.MaxTries ∧ loop t orig (fuel + 1) m0 =
        Exec.returned (outcomeAt t orig m0).1 (outcomeAt t orig m0).2 (attempt t orig m0).2) ∨
    (m0.try_ ≠ t.MaxTries ∧ loop t orig (fuel + 1) m0 = Exec.panicked (attempt t orig m0).2) := by
  by_cases hmax : m0.try_ = t.MaxTries
  · left
    refine ⟨hmax, ?_⟩
    unfold loop
    rw [iteration_at_max t orig m0 hmax]
  · right
    refine ⟨hmax, ?_⟩
    unfold loop iteration
    simp only [attempt_try, hmax, if_false, hf]

theorem tries_trace_of_loop (t : ResilientTransport σ) (fuel : Nat) (req : Request) (w : σ)
    (hbody : bufferingSucceeds req) :
    (tries t fuel req w).trace =
      (loop t (origOf req) fuel (start req w)).trace ++
        (if (loop t (origOf req) fuel (start req w)).finished then deferredEvents req
         else []) := by
  unfold bufferingSucceeds at hbody
  cases hb : req.Body with
  | none =>
    rw [tries_no_body t fuel req w hb]
    simp [deferredEvents, hb]
  | some body =>
    rw [hb] at hbody
    rw [tries_body_ok t fuel req w body hb hbody]
    cases loop t (origOf req) fuel (start req w) <;>
      simp [runDeferred, Exec.trace, Exec.machine, Exec.finished, Machine.emit, deferredEvents, hb]

theorem tries_finished_of_loop (t : ResilientTransport σ) (fuel : Nat) (req : Request) (w : σ)
    (hbody : bufferingSucceeds req) :
    (tries t fuel req w).finished = (loop t (origOf req) fuel (start req w)).finished ∧
      (tries t fuel req w).result = (loop t (origOf req) fuel (start req w)).result := by
  rcases tries_of_bufferingSucceeds t fuel req w hbody with ht | ⟨body, ht⟩
  · rw [ht]; exact ⟨rfl, rfl⟩
  · rw [ht]
    cases loop t (origOf req) fuel (start req w) <;> exact ⟨rfl, rfl⟩

/-- The trace of a run of `tries` with a non-nil policy on a request that is
buffered: `j` retried iterations, then nothing when the fuel is spent, or else
the last attempt, the refusal of the policy if it was consulted, and the
deferred call. -/
theorem tries_shape (t : ResilientTransport σ) (f : RetryPolicyFunc σ)
    (hf : t.ShouldRetry = some f) (req : Request) (w : σ) (hbody : bufferingSucceeds req)
    (fuel : Nat) :
    ∃ j, j ≤ fuel ∧
      (∀ i, i < j → (startOf t f (origOf req) (start req w) i).try_ ≠ t.MaxTries ∧
        verdictAt t f (origOf req) (startOf t f (origOf req) (start req w) i) = true) ∧
      (((tries t fuel req w).finished = false ∧ j = fuel ∧
          (tries t fuel req w).trace = (startOf t f (origOf req) (start req w) j).trace) ∨
       ((tries t fuel req w).finished = true ∧
          (startOf t f (origOf req) (start req w) j).try_ = t.MaxTries ∧
          (tries t fuel req w).result =
            some (outcomeAt t (origOf req) (startOf t f (origOf req) (start req w) j)) ∧
          (tries t fuel req w).trace =
            (startOf t f (origOf req) (start req w) j).trace ++
              [Event.roundTrip (startOf t f (origOf req) (start req w) j).try_
                (installBody (origOf req) (startOf t f (origOf req) (start req w) j).req)
                (outcomeAt t (origOf req) (startOf t f (origOf req) (start req w) j)).1
                (outcomeAt t (origOf req) (startOf t f (origOf req) (start req w) j)).2] ++
              deferredEvents req) ∨
       ((tries t fuel req w).finished = true ∧
          (startOf t f (origOf req) (start req w) j).try_ ≠ t.MaxTries ∧
          (tries t fuel req w).result =
            some (outcomeAt t (origOf req) (startOf t f (origOf req) (start req w) j)) ∧
          (tries t fuel req w).trace =
            (startOf t f (origOf req) (start req w) j).trace ++
              [Event.roundTrip (startOf t f (origOf req) (start req w) j).try_
                (installBody (origOf req) (startOf t f (origOf req) (start req w) j).req)
                (outcomeAt t (origOf req) (startOf t f (origOf req) (start req w) j)).1
                (outcomeAt t (origOf req) (startOf t f (origOf req) (start req w) j)).2,
               Event.shouldRetry
                (attempt t (origOf req) (startOf t f (origOf req) (start req w) j)).2.req
                (outcomeAt t (origOf req) (startOf t f (origOf req) (start req w) j)).1
                (outcomeAt t (origOf req) (startOf t f (origOf req) (start req w) j)).2 false] ++
              deferredEvents req)) := by
  obtain ⟨j, hj, hall, hcase⟩ := loop_shape t f hf (origOf req) fuel (start req w)
  have htr := tries_trace_of_loop t fuel req w hbody
  obtain ⟨hfin, hres⟩ := tries_finished_of_loop t fuel req w hbody
  refine ⟨j, hj, hall, ?_⟩
  rcases hcase with ⟨h1, h2⟩ | ⟨_, h2, h3⟩ | ⟨_, h2, hv, h3⟩
  · left
    rw [h2] at htr hfin
    exact ⟨hfin, h1, by simpa [Exec.finished, Exec.trace, Exec.machine] using htr⟩
  · right; left
    rw [h3] at htr hfin hres
    refine ⟨hfin, h2, hres, ?_⟩
    rw [htr]
    simp [Exec.finished, Exec.trace, Exec.machine, attempt_trace, outcomeAt]
  · right; right
    rw [h3] at htr hfin hres
    refine ⟨hfin, h2, hres, ?_⟩
    rw [htr]
    unfold verdictAt at hv
    simp [Exec.finished, Exec.trace, Exec.machine, consult_trace, attempt_trace, outcomeAt, hv]

/-! ### What a trace holds after `j` retried iterations -/

theorem start_projections (req : Request) (w : σ) :
    outcomes (start req w).trace = [] ∧ consulted (start req w).trace = [] ∧
      observed (start req w).trace = [] ∧ closed (start req w).trace = [] ∧
      sleeps (start req w).trace = [] ∧ requestsShown (start req w).trace = [] := by
  unfold start
  split <;> exact ⟨rfl, rfl, rfl, rfl, rfl, rfl⟩

theorem deferredEvents_projections (req : Request) :
    outcomes (deferredEvents req) = [] ∧ consulted (deferredEvents req) = [] ∧
      observed (deferredEvents req) = [] ∧ closed (deferredEvents req) = [] ∧
      sleeps (deferredEvents req) = [] ∧ requestsShown (deferredEvents req) = [] := by
  unfold deferredEvents
  split <;> exact ⟨rfl, rfl, rfl, rfl, rfl, rfl⟩

theorem startOf_outcomes (t : ResilientTransport σ) (f : RetryPolicyFunc σ) (orig : List Nat)
    (m0 : Machine σ) (i : Nat) :
    outcomes (startOf t f orig m0 (i + 1)).trace =
      outcomes (startOf t f orig m0 i).trace ++
        [((startOf t f orig m0 i).try_, (outcomeAt t orig (startOf t f orig m0 i)).1,
          (outcomeAt t orig (startOf t f orig m0 i)).2)] := by
  rw [startOf_trace_succ, outcomes_append, outcomes_retryEvents]

theorem startOf_consulted (t : ResilientTransport σ) (f : RetryPolicyFunc σ) (orig : List Nat)
    (m0 : Machine σ)
    (h0 : consulted m0.trace = (outcomes m0.trace).map (fun o => (o.2.1, o.2.2))) :
    ∀ j, consulted (startOf t f orig m0 j).trace =
      (outcomes (startOf t f orig m0 j).trace).map (fun o => (o.2.1, o.2.2)) := by
  intro j
  induction j with
  | zero => exact h0
  | succ j ih =>
    rw [startOf_outcomes, startOf_trace_succ, consulted_append, consulted_retryEvents, ih]
    simp

theorem startOf_closed (t : ResilientTransport σ) (f : RetryPolicyFunc σ) (orig : List Nat)
    (m0 : Machine σ)
    (h0 : closed m0.trace = (outcomes m0.trace).filterMap (fun o => o.2.1)) :
    ∀ j, closed (startOf t f orig m0 j).trace =
      (outcomes (startOf t f orig m0 j).trace).filterMap (fun o => o.2.1) := by
  intro j
  induction j with
  | zero => exact h0
  | succ j ih =>
    rw [startOf_outcomes, startOf_trace_succ, closed_append, closed_retryEvents, ih,
      List.filterMap_append]
    cases (outcomeAt t orig (startOf t f orig m0 j)).1 <;> simp

theorem startOf_observed (t : ResilientTransport σ) (f : RetryPolicyFunc σ) (orig : List Nat)
    (m0 : Machine σ) (g : OnRetryFunc σ) (hg : t.OnRetry = some g)
    (h0 : observed m0.trace = (outcomes m0.trace).map (fun o => (o.2.1, o.2.2, o.1))) :
    ∀ j, observed (startOf t f orig m0 j).trace =
      (outcomes (startOf t f orig m0 j).trace).map (fun o => (o.2.1, o.2.2, o.1)) := by
  intro j
  induction j with
  | zero => exact h0
  | succ j ih =>
    rw [startOf_outcomes, startOf_trace_succ, observed_append, observed_retryEvents, ih, hg]
    simp

theorem startOf_observed_nil (t : ResilientTransport σ) (f : RetryPolicyFunc σ)
    (orig : List Nat) (m0 : Machine σ) (hg : t.OnRetry = none) (h0 : observed m0.trace = []) :
    ∀ j, observed (startOf t f orig m0 j).trace = [] := by
  intro j
  induction j with
  | zero => exact h0
  | succ j ih =>
    rw [startOf_trace_succ, observed_append, observed_retryEvents, ih, hg]
    rfl

theorem startOf_sleeps (t : ResilientTransport σ) (f : RetryPolicyFunc σ) (orig : List Nat)
    (m0 : Machine σ) (bf : BackoffPolicyFunc σ) (hb : t.Backoff = some bf) (b : Int → Int)
    (hpure : ∀ k w, (bf k w).1 = b k)
    (h0 : sleeps m0.trace = (outcomes m0.trace).map (fun o => b o.1)) :
    ∀ j, sleeps (startOf t f orig m0 j).trace =
      (outcomes (startOf t f orig m0 j).trace).map (fun o => b o.1) := by
  intro j
  induction j with
  | zero => exact h0
  | succ j ih =>
    rw [startOf_outcomes, startOf_trace_succ, sleeps_append, sleeps_retryEvents, ih, hb]
    simp [hpure]

theorem startOf_sleeps_nil (t : ResilientTransport σ) (f : RetryPolicyFunc σ)
    (orig : List Nat) (m0 : Machine σ) (hb : t.Backoff = none) (h0 : sleeps m0.trace = []) :
    ∀ j, sleeps (startOf t f orig m0 j).trace = [] := by
  intro j
  induction j with
  | zero => exact h0
  | succ j ih =>
    rw [startOf_trace_succ, sleeps_append, sleeps_retryEvents, ih, hb]
    rfl

theorem startOf_outcomes_length (t : ResilientTransport σ) (f : RetryPolicyFunc σ)
    (req : Request) (w : σ) (j : Nat) :
    (outcomes (startOf t f (origOf req) (start req w) j).trace).length = j := by
  rw [← attempts_eq_length_outcomes, startOf_attempts, start_attempts, Nat.zero_add]

/-- The values of `try` at the first `j` attempts of a run of `tries`. -/
theorem startOf_tries (t : ResilientTransport σ) (f : RetryPolicyFunc σ) (req : Request)
    (w : σ) :
    ∀ j, (outcomes (startOf t f (origOf req) (start req w) j).trace).map (fun o => o.1) =
      (List.range j).map (fun i : Nat => wrapInt (1 + (i : Int))) := by
  intro j
  induction j with
  | zero => simp [startOf, (start_projections req w).1]
  | succ j ih =>
    rw [startOf_outcomes, List.map_append, ih, List.range_succ, List.map_append,
      start_startOf_try]
    rfl

/-- With `MaxTries ≥ 1`, as long as `try` has not reached `MaxTries` it has not
wrapped: after `j` retried iterations `j < MaxTries`, and attempt `i + 1 ≤ j + 1`
is made with `try = i + 1`. -/
theorem no_wrap_below_MaxTries (N : Int) (hN : 1 ≤ N) (hmax : N ≤ maxInt) :
    ∀ j : Nat, (∀ i, i < j → wrapInt (1 + (i : Int)) ≠ N) →
      (j : Int) + 1 ≤ N ∧ ∀ i, i ≤ j → wrapInt (1 + (i : Int)) = 1 + (i : Int) := by
  intro j
  induction j with
  | zero =>
    intro _
    refine ⟨by simpa using hN, fun i hi => ?_⟩
    have : i = 0 := by omega
    subst this
    decide
  | succ j ih =>
    intro h
    obtain ⟨hj, hw⟩ := ih (fun i hi => h i (by omega))
    have hne := h j (by omega)
    rw [hw j (le_refl j)] at hne
    have hlt : (j : Int) + 1 < N := lt_of_le_of_ne hj (by intro h1; apply hne; omega)
    refine ⟨by push_cast; omega, fun i hi => ?_⟩
    apply wrapInt_of_range
    · unfold minInt; omega
    · push_cast at hlt ⊢; omega

theorem sameRequest_attempt (t : ResilientTransport σ) (orig : List Nat) (m : Machine σ)
    (req : Request) (h : sameRequest m.req req) : sameRequest (attempt t orig m).2.req req := by
  obtain ⟨h1, h2, h3⟩ := h
  unfold attempt installBody Request.consume
  cases hb : m.req.Body with
  | none => rw [hb] at h3; exact ⟨h1, h2, by simpa [hb] using h3⟩
  | some b => rw [hb] at h3; exact ⟨h1, h2, by simpa using h3⟩

theorem sameRequest_start (req : Request) (w : σ) : sameRequest (start req w).req req := by
  unfold start
  cases hb : req.Body with
  | none => exact ⟨rfl, rfl, rfl⟩
  | some b => exact ⟨rfl, rfl, by simp [hb]⟩

theorem startOf_sameRequest (t : ResilientTransport σ) (f : RetryPolicyFunc σ) (req : Request)
    (w : σ) : ∀ j, sameRequest (startOf t f (origOf req) (start req w) j).req req := by
  intro j
  induction j with
  | zero => exact sameRequest_start req w
  | succ j ih =>
    show sameRequest (retryPath t f (origOf req) _).req req
    unfold retryPath
    rw [retry_req]
    exact sameRequest_attempt t (origOf req) _ req ih

theorem startOf_requestsShown (t : ResilientTransport σ) (f : RetryPolicyFunc σ)
    (req : Request) (w : σ) :
    ∀ j, ∀ rq ∈ requestsShown (startOf t f (origOf req) (start req w) j).trace,
      sameRequest rq req := by
  intro j
  induction j with
  | zero =>
    intro rq hrq
    rw [show startOf t f (origOf req) (start req w) 0 = start req w from rfl,
      (start_projections req w).2.2.2.2.2] at hrq
    cases hrq
  | succ j ih =>
    intro rq hrq
    rw [startOf_trace_succ, requestsShown_append] at hrq
    rcases List.mem_append.1 hrq with h | h
    · exact ih rq h
    · rw [requestsShown_retryEvents t f (origOf req) _ rq h]
      exact sameRequest_attempt t (origOf req) _ req (startOf_sameRequest t f req w j)

/-! ### Two transports that differ in their observer or their backoff -/

theorem iteration_nil_policy (t : ResilientTransport σ) (orig : List Nat) (m : Machine σ)
    (h : m.try_ ≠ t.MaxTries) (hf : t.ShouldRetry = none) :
    iteration t orig m = Step.panics (attempt t orig m).2 := by
  unfold iteration
  simp only [attempt_try, h, if_false, hf]

theorem notify_world (t : ResilientTransport σ) (r : RoundTripResult σ) (m : Machine σ) :
    (notify t r m).world =
      match t.OnRetry with
      | some g => g m.req r.res r.err m.try_ m.world
      | none => m.world := by
  unfold notify
  cases t.OnRetry <;> rfl

theorem retry_world (t : ResilientTransport σ) (r : RoundTripResult σ) (m : Machine σ) :
    (retry t r m).world =
      match t.Backoff with
      | some b => (b m.try_ (notify t r m).world).2
      | none => (notify t r m).world := by
  obtain ⟨res, err, n, w⟩ := r
  unfold retry increment backoff release notify Machine.emit
  cases t.OnRetry <;> cases res <;> cases t.Backoff <;> rfl

theorem retry_outcomes (t : ResilientTransport σ) (r : RoundTripResult σ) (m : Machine σ) :
    outcomes (retry t r m).trace = outcomes m.trace := by
  obtain ⟨res, err, n, w⟩ := r
  rw [retry_trace_eq]
  cases t.OnRetry <;> cases res <;> cases t.Backoff <;> simp [outcomes_append, outcomes]

/-- Two transports with the same `MaxTries`, underlying transport and policy,
run from worlds related by `R`, make the same attempts with the same outcomes
and hand the same result to the caller, provided the underlying transport and
the policy cannot tell related worlds apart and what follows a decided retry
keeps the worlds related. -/
theorem loop_simulation (t1 t2 : ResilientTransport σ) (R : σ → σ → Prop)
    (hmax : t1.MaxTries = t2.MaxTries) (htr : t1.transport = t2.transport)
    (hsr : t1.ShouldRetry = t2.ShouldRetry)
    (hT : ∀ rq w1 w2, R w1 w2 →
      (t1.transport rq w1).res = (t1.transport rq w2).res ∧
      (t1.transport rq w1).err = (t1.transport rq w2).err ∧
      (t1.transport rq w1).consumed = (t1.transport rq w2).consumed ∧
      R (t1.transport rq w1).world (t1.transport rq w2).world)
    (hS : ∀ f, t1.ShouldRetry = some f → ∀ rq res err w1 w2, R w1 w2 →
      (f rq res err w1).1 = (f rq res err w2).1 ∧ R (f rq res err w1).2 (f rq res err w2).2)
    (hretry : ∀ (r1 r2 : RoundTripResult σ) (m1 m2 : Machine σ), r1.res = r2.res →
      r1.err = r2.err → R m1.world m2.world → m1.req = m2.req → m1.try_ = m2.try_ →
      R (retry t1 r1 m1).world (retry t2 r2 m2).world)
    (orig : List Nat) :
    ∀ (fuel : Nat) (m1 m2 : Machine σ), R m1.world m2.world → m1.req = m2.req →
      m1.try_ = m2.try_ → outcomes m1.trace = outcomes m2.trace →
      (loop t1 orig fuel m1).result = (loop t2 orig fuel m2).result ∧
      (loop t1 orig fuel m1).finished = (loop t2 orig fuel m2).finished ∧
      outcomes (loop t1 orig fuel m1).trace = outcomes (loop t2 orig fuel m2).trace := by
  intro fuel
  induction fuel with
  | zero => intro m1 m2 _ _ _ ho; exact ⟨rfl, rfl, ho⟩
  | succ fuel ih =>
    intro m1 m2 hR hreq htry ho
    obtain ⟨hres, herr, hcons, hw⟩ := hT (installBody orig m1.req) m1.world m2.world hR
    have ha_res : (attempt t1 orig m1).1.res = (attempt t2 orig m2).1.res := by
      simp only [attempt, ← htr, ← hreq]; exact hres
    have ha_err : (attempt t1 orig m1).1.err = (attempt t2 orig m2).1.err := by
      simp only [attempt, ← htr, ← hreq]; exact herr
    have ha_req : (attempt t1 orig m1).2.req = (attempt t2 orig m2).2.req := by
      simp only [attempt, ← htr, ← hreq, hcons]
    have ha_world : R (attempt t1 orig m1).2.world (attempt t2 orig m2).2.world := by
      simp only [attempt, ← htr, ← hreq]; exact hw
    have ha_out : outcomes (attempt t1 orig m1).2.trace =
        outcomes (attempt t2 orig m2).2.trace := by
      rw [attempt_trace, attempt_trace, outcomes_append, outcomes_append, ho, ha_res, ha_err,
        htry]
      rfl
    have ho_eq : outcomeAt t1 orig m1 = outcomeAt t2 orig m2 := by
      unfold outcomeAt; rw [ha_res, ha_err]
    by_cases hmx : m1.try_ = t1.MaxTries
    · have hmx2 : m2.try_ = t2.MaxTries := by rw [← htry, ← hmax]; exact hmx
      unfold loop
      rw [iteration_at_max t1 orig m1 hmx, iteration_at_max t2 orig m2 hmx2, ho_eq]
      exact ⟨rfl, rfl, ha_out⟩
    · have hmx2 : m2.try_ ≠ t2.MaxTries := by rw [← htry, ← hmax]; exact hmx
      cases hf : t1.ShouldRetry with
      | none =>
        unfold loop
        rw [iteration_nil_policy t1 orig m1 hmx hf,
          iteration_nil_policy t2 orig m2 hmx2 (by rw [← hsr]; exact hf)]
        exact ⟨rfl, rfl, ha_out⟩
      | some f =>
        have hf2 : t2.ShouldRetry = some f := by rw [← hsr]; exact hf
        obtain ⟨hv, hvw⟩ := hS f hf (attempt t1 orig m1).2.req (attempt t1 orig m1).1.res
          (attempt t1 orig m1).1.err _ _ ha_world
        have hverdict : verdictAt t1 f orig m1 = verdictAt t2 f orig m2 := by
          unfold verdictAt consult
          simp only
          rw [← ha_req, ← ha_res, ← ha_err]
          exact hv
        have hc_out : outcomes (consult f (attempt t1 orig m1).1 (attempt t1 orig m1).2).2.trace =
            outcomes (consult f (attempt t2 orig m2).1 (attempt t2 orig m2).2).2.trace := by
          rw [consult_trace, consult_trace, outcomes_append, outcomes_append, ha_out]
          rfl
        cases hv1 : verdictAt t1 f orig m1 with
        | false =>
          unfold loop
          rw [iteration_refused t1 f orig m1 hmx hf hv1,
            iteration_refused t2 f orig m2 hmx2 hf2 (by rw [← hverdict]; exact hv1), ho_eq]
          exact ⟨rfl, rfl, hc_out⟩
        | true =>
          have h1 : loop t1 orig (fuel + 1) m1 = loop t1 orig fuel (retryPath t1 f orig m1) := by
            conv_lhs => unfold loop
            rw [iteration_retried t1 f orig m1 hmx hf hv1]
          have h2 : loop t2 orig (fuel + 1) m2 = loop t2 orig fuel (retryPath t2 f orig m2) := by
            conv_lhs => unfold loop
            rw [iteration_retried t2 f orig m2 hmx2 hf2 (by rw [← hverdict]; exact hv1)]
          rw [h1, h2]
          apply ih
          · unfold retryPath
            apply hretry _ _ _ _ ha_res ha_err
            · simp only [consult]
              rw [← ha_req, ← ha_res, ← ha_err]
              exact hvw
            · exact ha_req
            · exact htry
          · unfold retryPath
            rw [retry_req, retry_req]
            exact ha_req
          · rw [retryPath_try, retryPath_try, htry]
          · unfold retryPath
            rw [retry_outcomes, retry_outcomes]
            exact hc_out

/-- The same, for `tries` started twice on one request in one world. -/
theorem tries_simulation (t1 t2 : ResilientTransport σ) (R : σ → σ → Prop)
    (hmax : t1.MaxTries = t2.MaxTries) (htr : t1.transport = t2.transport)
    (hsr : t1.ShouldRetry = t2.ShouldRetry)
    (hT : ∀ rq w1 w2, R w1 w2 →
      (t1.transport rq w1).res = (t1.transport rq w2).res ∧
      (t1.transport rq w1).err = (t1.transport rq w2).err ∧
      (t1.transport rq w1).consumed = (t1.transport rq w2).consumed ∧
      R (t1.transport rq w1).world (t1.transport rq w2).world)
    (hS : ∀ f, t1.ShouldRetry = some f → ∀ rq res err w1 w2, R w1 w2 →
      (f rq res err w1).1 = (f rq res err w2).1 ∧ R (f rq res err w1).2 (f rq res err w2).2)
    (hretry : ∀ (r1 r2 : RoundTripResult σ) (m1 m2 : Machine σ), r1.res = r2.res →
      r1.err = r2.err → R m1.world m2.world → m1.req = m2.req → m1.try_ = m2.try_ →
      R (retry t1 r1 m1).world (retry t2 r2 m2).world)
    (fuel : Nat) (req : Request) (w : σ) (hw : R w w) :
    (tries t1 fuel req w).result = (tries t2 fuel req w).result ∧
      outcomes (tries t1 fuel req w).trace = outcomes (tries t2 fuel req w).trace := by
  have hloop := loop_simulation t1 t2 R hmax htr hsr hT hS hretry (origOf req) fuel
    (start req w) (start req w) (by rw [start_world]; exact hw) rfl rfl rfl
  cases hb : req.Body with
  | none =>
    rw [tries_no_body t1 fuel req w hb, tries_no_body t2 fuel req w hb]
    exact ⟨hloop.1, hloop.2.2⟩
  | some body =>
    cases herr : (ReadAll body).2 with
    | some e =>
      rw [tries_body_err t1 fuel req w body e hb herr, tries_body_err t2 fuel req w body e hb herr]
      exact ⟨rfl, rfl⟩
    | none =>
      rw [tries_body_ok t1 fuel req w body hb herr, tries_body_ok t2 fuel req w body hb herr]
      obtain ⟨h1, h2, h3⟩ := hloop
      cases hl1 : loop t1 (origOf req) fuel (start req w) <;>
        cases hl2 : loop t2 (origOf req) fuel (start req w) <;>
        rw [hl1, hl2] at h1 h2 h3 <;>
        simp [runDeferred, Exec.result, Exec.finished, Exec.trace, Exec.machine, Machine.emit,
          outcomes_append, outcomes] at h1 h2 h3 ⊢ <;>
        simp [h1, h3]

/-! ### Finished runs -/

/-- With `MaxTries ≥ 1`, a run of `tries` is over after `MaxTries` iterations. -/
theorem tries_finishes (t : ResilientTransport σ) (hN : 1 ≤ t.MaxTries) (fuel : Nat)
    (hfuel : t.MaxTries ≤ fuel) (req : Request) (w : σ) :
    (tries t fuel req w).finished = true := by
  have hloop := loop_bounded t (origOf req) fuel (start req w)
    (by rw [start_try]) (by rw [start_try]; exact hN)
    (by rw [start_attempts, start_try]; rfl)
    (by
      intro k rq res err hmem
      have := (start_no_roundTrip req w _ hmem).1
      simp [Event.isRoundTrip] at this)
  rw [start_try] at hloop
  have hnr : ∀ m, loop t (origOf req) fuel (start req w) ≠ Exec.running m :=
    hloop.2.2 (by omega)
  cases hb : req.Body with
  | none =>
    rw [tries_no_body t fuel req w hb]
    cases hl : loop t (origOf req) fuel (start req w) with
    | running m => exact absurd hl (hnr m)
    | returned _ _ _ => rfl
    | panicked _ => rfl
  | some body =>
    cases herr : (ReadAll body).2 with
    | some e => rw [tries_body_err t fuel req w body e hb herr]; rfl
    | none =>
      rw [tries_body_ok t fuel req w body hb herr]
      cases hl : loop t (origOf req) fuel (start req w) with
      | running m => exact absurd hl (hnr m)
      | returned _ _ _ => rfl
      | panicked _ => rfl

/-- A run of `tries` on a request whose body cannot be buffered. -/
theorem tries_trace_body_err (t : ResilientTransport σ) (fuel : Nat) (req : Request) (w : σ)
    (hbody : ¬ bufferingSucceeds req) :
    outcomes (tries t fuel req w).trace = [] ∧ consulted (tries t fuel req w).trace = [] ∧
      observed (tries t fuel req w).trace = [] ∧ closed (tries t fuel req w).trace = [] ∧
      sleeps (tries t fuel req w).trace = [] ∧
      requestsShown (tries t fuel req w).trace = [] ∧
      (tries t fuel req w).trace = (start req w).trace := by
  unfold bufferingSucceeds at hbody
  cases hb : req.Body with
  | none => rw [hb] at hbody; exact absurd trivial hbody
  | some body =>
    rw [hb] at hbody
    cases herr : (ReadAll body).2 with
    | none => exact absurd herr hbody
    | some e =>
      rw [tries_body_err t fuel req w body e hb herr]
      obtain ⟨h1, h2, h3, h4, h5, h6⟩ := start_projections req w
      exact ⟨h1, h2, h3, h4, h5, h6, rfl⟩

/-- What the trace of a finished run holds, whatever the policy: the events of
`j` retried iterations and then one more attempt. -/
theorem tries_finished_shape (t : ResilientTransport σ) (req : Request) (w : σ)
    (hbody : bufferingSucceeds req) (fuel : Nat)
    (hfin : (tries t fuel req w).finished = true) :
    ∃ f j,
      (∀ i, i < j → (startOf t f (origOf req) (start req w) i).try_ ≠ t.MaxTries) ∧
      outcomes (tries t fuel req w).trace =
        outcomes (startOf t f (origOf req) (start req w) j).trace ++
          [((startOf t f (origOf req) (start req w) j).try_,
            (outcomeAt t (origOf req) (startOf t f (origOf req) (start req w) j)).1,
            (outcomeAt t (origOf req) (startOf t f (origOf req) (start req w) j)).2)] ∧
      closed (tries t fuel req w).trace =
        closed (startOf t f (origOf req) (start req w) j).trace ∧
      observed (tries t fuel req w).trace =
        observed (startOf t f (origOf req) (start req w) j).trace ∧
      sleeps (tries t fuel req w).trace =
        sleeps (startOf t f (origOf req) (start req w) j).trace ∧
      ∀ rq ∈ requestsShown (tries t fuel req w).trace, sameRequest rq req := by
  obtain ⟨d1, d2, d3, d4, d5, d6⟩ := deferredEvents_projections req
  cases hf : t.ShouldRetry with
  | some f =>
    obtain ⟨j, -, hall, hcase⟩ := tries_shape t f hf req w hbody fuel
    refine ⟨f, j, fun i hi => (hall i hi).1, ?_⟩
    rcases hcase with ⟨h1, -, -⟩ | ⟨-, -, -, htr⟩ | ⟨-, -, -, htr⟩
    · rw [hfin] at h1; cases h1
    · rw [htr]
      refine ⟨?_, ?_, ?_, ?_, ?_⟩
      · simp [outcomes_append, outcomes, d1]
      · simp [closed_append, closed, d4]
      · simp [observed_append, observed, d3]
      · simp [sleeps_append, sleeps, d5]
      · intro rq hrq
        simp only [requestsShown_append, requestsShown, d6, List.append_nil] at hrq
        exact startOf_requestsShown t f req w j rq hrq
    · rw [htr]
      refine ⟨?_, ?_, ?_, ?_, ?_⟩
      · simp [outcomes_append, outcomes, d1]
      · simp [closed_append, closed, d4]
      · simp [observed_append, observed, d3]
      · simp [sleeps_append, sleeps, d5]
      · intro rq hrq
        simp only [requestsShown_append, requestsShown, d6, List.append_nil] at hrq
        rcases List.mem_append.1 hrq with h | h
        · exact startOf_requestsShown t f req w j rq h
        · simp only [List.mem_singleton] at h
          rw [h]
          exact sameRequest_attempt t (origOf req) _ req (startOf_sameRequest t f req w j)
  | none =>
    refine ⟨alwaysRetry, 0, fun i hi => absurd hi (Nat.not_lt_zero i), ?_⟩
    have htr := tries_trace_of_loop t fuel req w hbody
    obtain ⟨hfin2, -⟩ := tries_finished_of_loop t fuel req w hbody
    rw [hfin] at hfin2
    cases fuel with
    | zero => simp [loop, Exec.finished] at hfin2
    | succ fuel =>
      obtain ⟨p1, p2, p3, p4, p5, p6⟩ := start_projections req w
      have key : (tries t (fuel + 1) req w).trace =
          (start req w).trace ++
            [Event.roundTrip (start req w).try_ (installBody (origOf req) (start req w).req)
              (outcomeAt t (origOf req) (start req w)).1
              (outcomeAt t (origOf req) (start req w)).2] ++ deferredEvents req := by
        rw [htr]
        rcases loop_shape_nil t hf (origOf req) fuel (start req w) with ⟨-, h⟩ | ⟨-, h⟩ <;>
          rw [h] <;>
          simp [Exec.finished, Exec.trace, Exec.machine, attempt_trace, outcomeAt]
      rw [key]
      refine ⟨?_, ?_, ?_, ?_, ?_⟩
      · simp [outcomes_append, outcomes, d1, startOf]
      · simp [closed_append, closed, d4, startOf]
      · simp [observed_append, observed, d3, startOf]
      · simp [sleeps_append, sleeps, d5, startOf]
      · intro rq hrq
        simp [requestsShown_append, requestsShown, d6, p6] at hrq

/-- The values of `try` in a finished run with `MaxTries ≥ 1` are 1, 2, ... -/
theorem tries_numbering (t : ResilientTransport σ) (f : RetryPolicyFunc σ)
    (hN : 1 ≤ t.MaxTries) (req : Request) (w : σ) (j : Nat)
    (hall : ∀ i, i < j → (startOf t f (origOf req) (start req w) i).try_ ≠ t.MaxTries) :
    (j : Int) + 1 ≤ t.MaxTries ∧
    (startOf t f (origOf req) (start req w) j).try_ = (j : Int) + 1 ∧
    (outcomes (startOf t f (origOf req) (start req w) j).trace).map (fun o => o.1) =
      (List.range j).map (fun i : Nat => (i : Int) + 1) := by
  obtain ⟨hj, hw⟩ := no_wrap_below_MaxTries t.MaxTries hN t.MaxTries_range.2 j
    (fun i hi => by rw [← start_startOf_try t f req w i]; exact hall i hi)
  refine ⟨hj, ?_, ?_⟩
  · rw [start_startOf_try, hw j (le_refl j)]; ring
  · rw [startOf_tries]
    apply List.map_congr_left
    intro i hi
    rw [hw i (le_of_lt (List.mem_range.1 hi))]
    ring

/-! ### Response bodies, observer, backoff and policy calls -/

theorem loop_observed_nil (t : ResilientTransport σ) (hg : t.OnRetry = none) (orig : List Nat) :
    ∀ (fuel : Nat) (m : Machine σ), observed m.trace = [] →
      observed (loop t orig fuel m).trace = [] := by
  intro fuel
  induction fuel with
  | zero => intro m h; exact h
  | succ fuel ih =>
    intro m h
    unfold loop
    cases hit : iteration t orig m with
    | next m1 =>
      obtain ⟨-, f, -, -, rfl⟩ := iteration_next_inv t orig m m1 hit
      apply ih
      rw [retryPath_trace_eq, observed_append, observed_retryEvents, h, hg]
      rfl
    | ret res err m1 =>
      obtain ⟨-, hcase⟩ := iteration_ret_inv t orig m m1 res err hit
      simp only [Exec.trace, Exec.machine]
      rcases hcase with ⟨-, rfl⟩ | ⟨-, f, -, -, rfl⟩
      · rw [attempt_trace, observed_append, h]; rfl
      · rw [consult_trace, observed_append, attempt_trace, observed_append, h]; rfl
    | panics m1 =>
      obtain ⟨-, -, rfl⟩ := iteration_panics_inv t orig m m1 hit
      simp only [Exec.trace, Exec.machine]
      rw [attempt_trace, observed_append, h]; rfl

theorem loop_sleeps_nil (t : ResilientTransport σ) (hb : t.Backoff = none) (orig : List Nat) :
    ∀ (fuel : Nat) (m : Machine σ), sleeps m.trace = [] →
      sleeps (loop t orig fuel m).trace = [] := by
  intro fuel
  induction fuel with
  | zero => intro m h; exact h
  | succ fuel ih =>
    intro m h
    unfold loop
    cases hit : iteration t orig m with
    | next m1 =>
      obtain ⟨-, f, -, -, rfl⟩ := iteration_next_inv t orig m m1 hit
      apply ih
      rw [retryPath_trace_eq, sleeps_append, sleeps_retryEvents, h, hb]
      rfl
    | ret res err m1 =>
      obtain ⟨-, hcase⟩ := iteration_ret_inv t orig m m1 res err hit
      simp only [Exec.trace, Exec.machine]
      rcases hcase with ⟨-, rfl⟩ | ⟨-, f, -, -, rfl⟩
      · rw [attempt_trace, sleeps_append, h]; rfl
      · rw [consult_trace, sleeps_append, attempt_trace, sleeps_append, h]; rfl
    | panics m1 =>
      obtain ⟨-, -, rfl⟩ := iteration_panics_inv t orig m m1 hit
      simp only [Exec.trace, Exec.machine]
      rw [attempt_trace, sleeps_append, h]; rfl

theorem tries_observed_nil (t : ResilientTransport σ) (hg : t.OnRetry = none) (fuel : Nat)
    (req : Request) (w : σ) : observed (tries t fuel req w).trace = [] := by
  by_cases hbody : bufferingSucceeds req
  · rw [tries_trace_of_loop t fuel req w hbody, observed_append,
      loop_observed_nil t hg (origOf req) fuel _ (start_projections req w).2.2.1]
    split
    · exact (deferredEvents_projections req).2.2.1
    · rfl
  · exact (tries_trace_body_err t fuel req w hbody).2.2.1

theorem tries_sleeps_nil (t : ResilientTransport σ) (hb : t.Backoff = none) (fuel : Nat)
    (req : Request) (w : σ) : sleeps (tries t fuel req w).trace = [] := by
  by_cases hbody : bufferingSucceeds req
  · rw [tries_trace_of_loop t fuel req w hbody, sleeps_append,
      loop_sleeps_nil t hb (origOf req) fuel _ (start_projections req w).2.2.2.2.1]
    split
    · exact (deferredEvents_projections req).2.2.2.2.1
    · rfl
  · exact (tries_trace_body_err t fuel req w hbody).2.2.2.2.1

/-- C14: with `MaxTries ≥ 1` a run of `tries` is over after `MaxTries`
iterations, and in every run that is over the response bodies closed by `tries`
are, in order and once each, the non-nil responses of the attempts before the
last one, whether or not these attempts also returned an error; the response of
the last attempt, which is what the caller gets, is not among them. -/
theorem tries_closes_intermediate_bodies (t : ResilientTransport σ) (hN : 1 ≤ t.MaxTries)
    (req : Request) (w : σ) :
    (∀ fuel : Nat, t.MaxTries ≤ fuel → (tries t fuel req w).finished = true) ∧
    (∀ fuel, (tries t fuel req w).finished = true →
      closed (tries t fuel req w).trace =
        ((outcomes (tries t fuel req w).trace).dropLast).filterMap (fun o => o.2.1)) := by
  refine ⟨fun fuel hfuel => tries_finishes t hN fuel hfuel req w, fun fuel hfin => ?_⟩
  by_cases hbody : bufferingSucceeds req
  · obtain ⟨f, j, -, ho, hc, -, -, -⟩ := tries_finished_shape t req w hbody fuel hfin
    rw [ho, hc, List.dropLast_concat]
    exact startOf_closed t f (origOf req) (start req w)
      (by rw [(start_projections req w).1, (start_projections req w).2.2.2.1]; rfl) j
  · obtain ⟨h1, -, -, h4, -⟩ := tries_trace_body_err t fuel req w hbody
    rw [h1, h4]; rfl

theorem tries_closes_intermediate_bodies_witness :
    (tries (sampleTransport 3 (by decide) 5) 3 samplePost 0).finished = true ∧
    closed (tries (sampleTransport 3 (by decide) 5) 3 samplePost 0).trace =
      ((outcomes (tries (sampleTransport 3 (by decide) 5) 3 samplePost 0).trace).dropLast).filterMap
        (fun o => o.2.1) ∧
    (closed (tries (sampleTransport 3 (by decide) 5) 3 samplePost 0).trace).length = 2 :=
  have h := tries_closes_intermediate_bodies (sampleTransport 3 (by decide) 5) (by decide)
    samplePost 0
  ⟨h.1 3 (by decide), h.2 3 (h.1 3 (by decide)), by decide⟩

/-- C15: with an observer configured and `MaxTries ≥ 1`, a run of `tries` is
over after `MaxTries` iterations, and in every run that is over, with `k`
attempts, the observer was called once after each attempt but the last, in
order, with that attempt's `(res, err)` and its number `try`, the attempts being
numbered 1, 2, ..., `k`, and always with the request of the caller.  Without the
observer the attempts, their outcomes and the result are the same, provided the
underlying transport and the policies cannot see what the observer does to the
world. -/
theorem tries_observer (t : ResilientTransport σ) (g : OnRetryFunc σ)
    (hg : t.OnRetry = some g) (hN : 1 ≤ t.MaxTries) (req : Request) (w : σ) :
    (∀ fuel : Nat, t.MaxTries ≤ fuel → (tries t fuel req w).finished = true) ∧
    (∀ fuel, (tries t fuel req w).finished = true →
      observed (tries t fuel req w).trace =
        ((outcomes (tries t fuel req w).trace).dropLast).map (fun o => (o.2.1, o.2.2, o.1)) ∧
      (outcomes (tries t fuel req w).trace).map (fun o => o.1) =
        (List.range (attempts (tries t fuel req w).trace)).map (fun i : Nat => (i : Int) + 1) ∧
      ∀ rq ∈ requestsShown (tries t fuel req w).trace, sameRequest rq req) ∧
    (∀ R : σ → σ → Prop, R w w →
      (∀ rq w1 w2, R w1 w2 →
        (t.transport rq w1).res = (t.transport rq w2).res ∧
        (t.transport rq w1).err = (t.transport rq w2).err ∧
        (t.transport rq w1).consumed = (t.transport rq w2).consumed ∧
        R (t.transport rq w1).world (t.transport rq w2).world) →
      (∀ f, t.ShouldRetry = some f → ∀ rq res err w1 w2, R w1 w2 →
        (f rq res err w1).1 = (f rq res err w2).1 ∧
        R (f rq res err w1).2 (f rq res err w2).2) →
      (∀ bf, t.Backoff = some bf → ∀ k w1 w2, R w1 w2 → R (bf k w1).2 (bf k w2).2) →
      (∀ rq res err k w1 w2, R w1 w2 → R (g rq res err k w1) w2) →
      ∀ fuel,
        (tries { t with OnRetry := none } fuel req w).result = (tries t fuel req w).result ∧
        outcomes (tries { t with OnRetry := none } fuel req w).trace =
          outcomes (tries t fuel req w).trace ∧
        observed (tries { t with OnRetry := none } fuel req w).trace = []) := by
  refine ⟨fun fuel hfuel => tries_finishes t hN fuel hfuel req w, fun fuel hfin => ?_, ?_⟩
  · by_cases hbody : bufferingSucceeds req
    · obtain ⟨f, j, hall, ho, -, hobs, -, hreq⟩ := tries_finished_shape t req w hbody fuel hfin
      obtain ⟨-, htry, hnum⟩ := tries_numbering t f hN req w j hall
      refine ⟨?_, ?_, hreq⟩
      · rw [ho, hobs, List.dropLast_concat]
        exact startOf_observed t f (origOf req) (start req w) g hg
          (by rw [(start_projections req w).1, (start_projections req w).2.2.1]; rfl) j
      · rw [attempts_eq_length_outcomes, ho, List.length_append, startOf_outcomes_length,
          List.map_append, hnum, htry, List.length_singleton, List.range_succ, List.map_append]
        rfl
    · obtain ⟨h1, -, h3, -, -, h6, -⟩ := tries_trace_body_err t fuel req w hbody
      rw [attempts_eq_length_outcomes, h1, h3, h6]
      exact ⟨rfl, rfl, fun rq hrq => by cases hrq⟩
  · intro R hw hT hS hB hG fuel
    have hsim := tries_simulation t { t with OnRetry := none } R rfl rfl rfl hT hS
      (by
        intro r1 r2 m1 m2 hres herr hR hreq htry
        rw [retry_world, retry_world]
        have hn : R (notify t r1 m1).world (notify { t with OnRetry := none } r2 m2).world := by
          rw [notify_world, notify_world, hg]
          exact hG _ _ _ _ _ _ hR
        cases hbf : t.Backoff with
        | none => simpa [hbf] using hn
        | some bf =>
          simp only [hbf]
          rw [htry]
          exact hB bf hbf _ _ _ hn)
      fuel req w hw
    exact ⟨hsim.1.symm, hsim.2.symm, tries_observed_nil _ rfl fuel req w⟩

theorem tries_observer_witness :
    (tries (watchedTransport 3 (by decide) 5) 3 samplePost (0, 0)).finished = true ∧
    (observed (tries (watchedTransport 3 (by decide) 5) 3 samplePost (0, 0)).trace =
        ((outcomes (tries (watchedTransport 3 (by decide) 5) 3 samplePost (0, 0)).trace).dropLast).map
          (fun o => (o.2.1, o.2.2, o.1)) ∧
      (outcomes (tries (watchedTransport 3 (by decide) 5) 3 samplePost (0, 0)).trace).map
          (fun o => o.1) =
        (List.range (attempts (tries (watchedTransport 3 (by decide) 5) 3 samplePost
          (0, 0)).trace)).map (fun i : Nat => (i : Int) + 1) ∧
      ∀ rq ∈ requestsShown (tries (watchedTransport 3 (by decide) 5) 3 samplePost (0, 0)).trace,
        sameRequest rq samplePost) ∧
    ((tries { watchedTransport 3 (by decide) 5 with OnRetry := none } 3 samplePost (0, 0)).result =
        (tries (watchedTransport 3 (by decide) 5) 3 samplePost (0, 0)).result ∧
      outcomes (tries { watchedTransport 3 (by decide) 5 with OnRetry := none } 3 samplePost
          (0, 0)).trace =
        outcomes (tries (watchedTransport 3 (by decide) 5) 3 samplePost (0, 0)).trace ∧
      observed (tries { watchedTransport 3 (by decide) 5 with OnRetry := none } 3 samplePost
          (0, 0)).trace = []) :=
  have h := tries_observer (watchedTransport 3 (by decide) 5) (fun _ _ _ _ w => (w.1, w.2 + 1))
    rfl (by decide) samplePost (0, 0)
  ⟨h.1 3 (by decide), h.2.1 3 (h.1 3 (by decide)),
    h.2.2 (fun a b => a.1 = b.1) rfl
      (fun rq w1 w2 hR => by
        obtain ⟨a1, b1⟩ := w1
        obtain ⟨a2, b2⟩ := w2
        have h1 : a1 = a2 := hR
        subst h1
        exact ⟨rfl, rfl, rfl, rfl⟩)
      (fun f hf rq res err w1 w2 hR => by
        obtain rfl := Option.some.inj (hf : some DefaultRetryPolicyFunc = some f)
        exact ⟨rfl, hR⟩)
      (fun bf hbf k w1 w2 hR => by
        obtain rfl := Option.some.inj
          (hbf : some (fun (n : Int) (w : Nat × Nat) =>
            (LinearBackoff n, (w.1, w.2 + (LinearBackoff n).toNat))) = some bf)
        exact hR)
      (fun rq res err k w1 w2 hR => hR) 3⟩

/-- C16: with a backoff policy configured whose delay for attempt number `i` is
`b i`, and `MaxTries ≥ 1`, a run of `tries` is over after `MaxTries`
iterations, and in every run that is over, with `k` attempts, the sleeps are
`b 1, b 2, ..., b (k - 1)` in this order: one after each attempt but the last.
Without the backoff policy no sleep occurs and the attempts, their outcomes and
the result are the same, provided the underlying transport, the policy and the
observer cannot see what the backoff policy does to the world. -/
theorem tries_backoff (t : ResilientTransport σ) (bf : BackoffPolicyFunc σ)
    (hb : t.Backoff = some bf) (b : Int → Int) (hpure : ∀ k w, (bf k w).1 = b k)
    (hN : 1 ≤ t.MaxTries) (req : Request) (w : σ) :
    (∀ fuel : Nat, t.MaxTries ≤ fuel → (tries t fuel req w).finished = true) ∧
    (∀ fuel, (tries t fuel req w).finished = true →
      sleeps (tries t fuel req w).trace =
        (List.range (attempts (tries t fuel req w).trace - 1)).map
          (fun i : Nat => b ((i : Int) + 1))) ∧
    (∀ R : σ → σ → Prop, R w w →
      (∀ rq w1 w2, R w1 w2 →
        (t.transport rq w1).res = (t.transport rq w2).res ∧
        (t.transport rq w1).err = (t.transport rq w2).err ∧
        (t.transport rq w1).consumed = (t.transport rq w2).consumed ∧
        R (t.transport rq w1).world (t.transport rq w2).world) →
      (∀ f, t.ShouldRetry = some f → ∀ rq res err w1 w2, R w1 w2 →
        (f rq res err w1).1 = (f rq res err w2).1 ∧
        R (f rq res err w1).2 (f rq res err w2).2) →
      (∀ g, t.OnRetry = some g → ∀ rq res err k w1 w2, R w1 w2 →
        R (g rq res err k w1) (g rq res err k w2)) →
      (∀ k w1 w2, R w1 w2 → R (bf k w1).2 w2) →
      ∀ fuel,
        (tries { t with Backoff := none } fuel req w).result = (tries t fuel req w).result ∧
        outcomes (tries { t with Backoff := none } fuel req w).trace =
          outcomes (tries t fuel req w).trace ∧
        sleeps (tries { t with Backoff := none } fuel req w).trace = []) := by
  refine ⟨fun fuel hfuel => tries_finishes t hN fuel hfuel req w, fun fuel hfin => ?_, ?_⟩
  · by_cases hbody : bufferingSucceeds req
    · obtain ⟨f, j, hall, ho, -, -, hsl, -⟩ := tries_finished_shape t req w hbody fuel hfin
      obtain ⟨-, -, hnum⟩ := tries_numbering t f hN req w j hall
      have hs := startOf_sleeps t f (origOf req) (start req w) bf hb b hpure
        (by rw [(start_projections req w).1, (start_projections req w).2.2.2.2.1]; rfl) j
      rw [attempts_eq_length_outcomes, ho, List.length_append, startOf_outcomes_length,
        List.length_singleton, Nat.add_sub_cancel, hsl, hs]
      have : (outcomes (startOf t f (origOf req) (start req w) j).trace).map (fun o => b o.1) =
          ((outcomes (startOf t f (origOf req) (start req w) j).trace).map (fun o => o.1)).map
            b := by
        rw [List.map_map]; rfl
      rw [this, hnum, List.map_map]
      rfl
    · obtain ⟨h1, -, -, -, h5, -, -⟩ := tries_trace_body_err t fuel req w hbody
      rw [attempts_eq_length_outcomes, h1, h5]
      rfl
  · intro R hw hT hS hG hB fuel
    have hsim := tries_simulation t { t with Backoff := none } R rfl rfl rfl hT hS
      (by
        intro r1 r2 m1 m2 hres herr hR hreq htry
        rw [retry_world, retry_world]
        have hn : R (notify t r1 m1).world (notify { t with Backoff := none } r2 m2).world := by
          rw [notify_world, notify_world]
          cases hg : t.OnRetry with
          | none => simpa [hg] using hR
          | some g =>
            simp only [hg]
            rw [hreq, hres, herr, htry]
            exact hG g hg _ _ _ _ _ _ hR
        simp only [hb]
        exact hB _ _ _ hn)
      fuel req w hw
    exact ⟨hsim.1.symm, hsim.2.symm, tries_sleeps_nil _ rfl fuel req w⟩

theorem tries_backoff_witness :
    (tries (watchedTransport 3 (by decide) 5) 3 samplePost (0, 0)).finished = true ∧
    sleeps (tries (watchedTransport 3 (by decide) 5) 3 samplePost (0, 0)).trace =
      (List.range (attempts (tries (watchedTransport 3 (by decide) 5) 3 samplePost
        (0, 0)).trace - 1)).map (fun i : Nat => LinearBackoff ((i : Int) + 1)) ∧
    ((tries { watchedTransport 3 (by decide) 5 with Backoff := none } 3 samplePost (0, 0)).result =
        (tries (watchedTransport 3 (by decide) 5) 3 samplePost (0, 0)).result ∧
      outcomes (tries { watchedTransport 3 (by decide) 5 with Backoff := none } 3 samplePost
          (0, 0)).trace =
        outcomes (tries (watchedTransport 3 (by decide) 5) 3 samplePost (0, 0)).trace ∧
      sleeps (tries { watchedTransport 3 (by decide) 5 with Backoff := none } 3 samplePost
          (0, 0)).trace = []) :=
  have h := tries_backoff (watchedTransport 3 (by decide) 5)
    (fun n w => (LinearBackoff n, (w.1, w.2 + (LinearBackoff n).toNat))) rfl LinearBackoff
    (fun _ _ => rfl) (by decide) samplePost (0, 0)
  ⟨h.1 3 (by decide), h.2.1 3 (h.1 3 (by decide)),
    h.2.2 (fun a b => a.1 = b.1) rfl
      (fun rq w1 w2 hR => by
        obtain ⟨a1, b1⟩ := w1
        obtain ⟨a2, b2⟩ := w2
        have h1 : a1 = a2 := hR
        subst h1
        exact ⟨rfl, rfl, rfl, rfl⟩)
      (fun f hf rq res err w1 w2 hR => by
        obtain rfl := Option.some.inj (hf : some DefaultRetryPolicyFunc = some f)
        exact ⟨rfl, hR⟩)
      (fun g hg rq res err k w1 w2 hR => by
        obtain rfl := Option.some.inj
          (hg : some (fun (_ : Request) (_ : Option Response) (_ : Option GoError) (_ : Int)
            (w : Nat × Nat) => (w.1, w.2 + 1)) = some g)
        exact hR)
      (fun k w1 w2 hR => hR) 3⟩

/-- C20: with `MaxTries = N ≥ 1` and a non-nil policy, at any point of a run of
`tries` that has made `k` attempts, `ShouldRetry` has been called
`min k (N - 1)` times: once, in order, with the `(res, err)` of each of the
first `N - 1` attempts made, never for attempt `N`, and always with the request
of the caller. -/
theorem tries_consults_policy (t : ResilientTransport σ) (f : RetryPolicyFunc σ)
    (hf : t.ShouldRetry = some f) (hN : 1 ≤ t.MaxTries) (req : Request) (w : σ) (fuel : Nat) :
    consulted (tries t fuel req w).trace =
      ((outcomes (tries t fuel req w).trace).take (t.MaxTries.toNat - 1)).map
        (fun o => (o.2.1, o.2.2)) ∧
    (consulted (tries t fuel req w).trace).length =
      min (attempts (tries t fuel req w).trace) (t.MaxTries.toNat - 1) ∧
    ∀ rq ∈ requestsShown (tries t fuel req w).trace, sameRequest rq req := by
  have hlen : consulted (tries t fuel req w).trace =
      ((outcomes (tries t fuel req w).trace).take (t.MaxTries.toNat - 1)).map
        (fun o => (o.2.1, o.2.2)) →
      (consulted (tries t fuel req w).trace).length =
        min (attempts (tries t fuel req w).trace) (t.MaxTries.toNat - 1) := by
    intro h
    rw [h, List.length_map, List.length_take, attempts_eq_length_outcomes, Nat.min_comm]
  by_cases hbody : bufferingSucceeds req
  · obtain ⟨d1, d2, d3, d4, d5, d6⟩ := deferredEvents_projections req
    obtain ⟨j, -, hall, hcase⟩ := tries_shape t f hf req w hbody fuel
    obtain ⟨hj, htry, -⟩ := tries_numbering t f hN req w j (fun i hi => (hall i hi).1)
    have hcons := startOf_consulted t f (origOf req) (start req w)
      (by rw [(start_projections req w).1, (start_projections req w).2.1]; rfl) j
    have hol := startOf_outcomes_length t f req w j
    rcases hcase with ⟨-, -, htr⟩ | ⟨-, hmax, -, htr⟩ | ⟨-, hne, -, htr⟩
    · have h1 : consulted (tries t fuel req w).trace =
          ((outcomes (tries t fuel req w).trace).take (t.MaxTries.toNat - 1)).map
            (fun o => (o.2.1, o.2.2)) := by
        rw [htr, hcons, List.take_of_length_le (by rw [hol]; omega)]
      refine ⟨h1, hlen h1, ?_⟩
      rw [htr]
      exact startOf_requestsShown t f req w j
    · have hjN : t.MaxTries.toNat - 1 = j := by rw [htry] at hmax; omega
      have h1 : consulted (tries t fuel req w).trace =
          ((outcomes (tries t fuel req w).trace).take (t.MaxTries.toNat - 1)).map
            (fun o => (o.2.1, o.2.2)) := by
        rw [htr, hjN]
        simp only [consulted_append, consulted, d2, outcomes_append, outcomes, d1,
          List.append_nil]
        rw [List.take_left' hol, hcons]
      refine ⟨h1, hlen h1, ?_⟩
      intro rq hrq
      rw [htr] at hrq
      simp only [requestsShown_append, requestsShown, d6, List.append_nil] at hrq
      exact startOf_requestsShown t f req w j rq hrq
    · have hjN : j + 1 ≤ t.MaxTries.toNat - 1 := by rw [htry] at hne; omega
      have h1 : consulted (tries t fuel req w).trace =
          ((outcomes (tries t fuel req w).trace).take (t.MaxTries.toNat - 1)).map
            (fun o => (o.2.1, o.2.2)) := by
        rw [htr]
        simp only [consulted_append, consulted, d2, outcomes_append, outcomes, d1,
          List.append_nil]
        rw [List.take_of_length_le (by rw [List.length_append, hol]; simpa using hjN), hcons]
        simp
      refine ⟨h1, hlen h1, ?_⟩
      intro rq hrq
      rw [htr] at hrq
      simp only [requestsShown_append, requestsShown, d6, List.append_nil] at hrq
      rcases List.mem_append.1 hrq with h | h
      · exact startOf_requestsShown t f req w j rq h
      · simp only [List.mem_singleton] at h
        rw [h]
        exact sameRequest_attempt t (origOf req) _ req (startOf_sameRequest t f req w j)
  · obtain ⟨h1, h2, -, -, -, h6, -⟩ := tries_trace_body_err t fuel req w hbody
    have h0 : consulted (tries t fuel req w).trace =
        ((outcomes (tries t fuel req w).trace).take (t.MaxTries.toNat - 1)).map
          (fun o => (o.2.1, o.2.2)) := by
      rw [h1, h2]; simp
    refine ⟨h0, hlen h0, ?_⟩
    rw [h6]
    intro rq hrq
    cases hrq

theorem tries_consults_policy_witness :
    consulted (tries (sampleTransport 3 (by decide) 5) 3 samplePost 0).trace =
      ((outcomes (tries (sampleTransport 3 (by decide) 5) 3 samplePost 0).trace).take
        ((sampleTransport 3 (by decide) 5).MaxTries.toNat - 1)).map (fun o => (o.2.1, o.2.2)) ∧
    (consulted (tries (sampleTransport 3 (by decide) 5) 3 samplePost 0).trace).length =
      min (attempts (tries (sampleTransport 3 (by decide) 5) 3 samplePost 0).trace)
        ((sampleTransport 3 (by decide) 5).MaxTries.toNat - 1) ∧
    ∀ rq ∈ requestsShown (tries (sampleTransport 3 (by decide) 5) 3 samplePost 0).trace,
      sameRequest rq samplePost :=
  tries_consults_policy (sampleTransport 3 (by decide) 5) DefaultRetryPolicyFunc rfl (by decide)
    samplePost 0 3

/-! ### The order of events -/

theorem follows_start (o b : Bool) (req : Request) (w : σ) :
    follows o b Stage.entered (start req w).trace = some Stage.entered ∨
      follows o b Stage.entered (start req w).trace = some Stage.ready := by
  unfold start
  split
  · right; rfl
  · left; rfl

theorem follows_startOf (t : ResilientTransport σ) (f : RetryPolicyFunc σ) (req : Request)
    (w : σ) :
    ∀ j, (∀ i, i < j →
        verdictAt t f (origOf req) (startOf t f (origOf req) (start req w) i) = true) →
      follows t.OnRetry.isSome t.Backoff.isSome Stage.entered
          (startOf t f (origOf req) (start req w) j).trace = some Stage.entered ∨
        follows t.OnRetry.isSome t.Backoff.isSome Stage.entered
          (startOf t f (origOf req) (start req w) j).trace = some Stage.ready := by
  intro j
  induction j with
  | zero => intro _; exact follows_start _ _ req w
  | succ j ih =>
    intro h
    right
    rw [startOf_trace_succ, follows_append]
    rcases ih (fun i hi => h i (by omega)) with h1 | h1 <;> rw [h1]
    · exact follows_retryEvents t f (origOf req) _ (h j (by omega)) _ (Or.inl rfl)
    · exact follows_retryEvents t f (origOf req) _ (h j (by omega)) _ (Or.inr rfl)

theorem follows_last_attempt (o b : Bool) (s : Stage) (hs : s = Stage.entered ∨ s = Stage.ready)
    (k : Int) (rq : Request) (res : Option Response) (err : Option GoError) (req : Request) :
    ∃ s1, follows o b s ([Event.roundTrip k rq res err] ++ deferredEvents req) = some s1 ∧
      (s1 = Stage.attempted k res err ∨ s1 = Stage.over) := by
  unfold deferredEvents
  rcases hs with rfl | rfl <;> cases req.Body <;> simp [follows, advance]

theorem follows_refusal (o b : Bool) (s : Stage) (hs : s = Stage.entered ∨ s = Stage.ready)
    (k : Int) (rq rq1 : Request) (res : Option Response) (err : Option GoError)
    (req : Request) :
    ∃ s1, follows o b s ([Event.roundTrip k rq res err, Event.shouldRetry rq1 res err false] ++
        deferredEvents req) = some s1 ∧
      (s1 = Stage.stopped ∨ s1 = Stage.over) := by
  unfold deferredEvents
  rcases hs with rfl | rfl <;> cases req.Body <;> simp [follows, advance]

/-- C18: the events of every run of `tries`, at any point of the run, come in
the order of the algorithm: the body is read at most once and first; each
attempt is followed by the call of the policy on its outcome; after a decided
retry come the observer, if configured, with the outcome and number of that
attempt, then the close of that attempt's response body, if it has a response,
then the sleep, if a backoff policy is configured, and only then the next
attempt; nothing but the deferred close follows the last attempt.  So the
response body of an attempt is closed before the next attempt begins, and the
observer runs before the sleep. -/
theorem tries_events_in_order (t : ResilientTransport σ) (fuel : Nat) (req : Request) (w : σ) :
    ∃ s, follows t.OnRetry.isSome t.Backoff.isSome Stage.entered (tries t fuel req w).trace =
        some s ∧
      ((tries t fuel req w).finished = false → s = Stage.entered ∨ s = Stage.ready) := by
  by_cases hbody : bufferingSucceeds req
  · cases hf : t.ShouldRetry with
    | some f =>
      obtain ⟨j, -, hall, hcase⟩ := tries_shape t f hf req w hbody fuel
      have hS := follows_startOf t f req w j (fun i hi => (hall i hi).2)
      rcases hcase with ⟨-, -, htr⟩ | ⟨hfin, -, -, htr⟩ | ⟨hfin, -, -, htr⟩
      · rw [htr]
        rcases hS with h | h
        · exact ⟨_, h, fun _ => Or.inl rfl⟩
        · exact ⟨_, h, fun _ => Or.inr rfl⟩
      · rw [htr, List.append_assoc, follows_append]
        rcases hS with h | h <;> rw [h]
        · obtain ⟨s1, h1, -⟩ := follows_last_attempt t.OnRetry.isSome t.Backoff.isSome _
            (Or.inl rfl) _ _ _ _ req
          exact ⟨s1, h1, fun h2 => by rw [hfin] at h2; cases h2⟩
        · obtain ⟨s1, h1, -⟩ := follows_last_attempt t.OnRetry.isSome t.Backoff.isSome _
            (Or.inr rfl) _ _ _ _ req
          exact ⟨s1, h1, fun h2 => by rw [hfin] at h2; cases h2⟩
      · rw [htr, List.append_assoc, follows_append]
        rcases hS with h | h <;> rw [h]
        · obtain ⟨s1, h1, -⟩ := follows_refusal t.OnRetry.isSome t.Backoff.isSome _
            (Or.inl rfl) _ _ _ _ _ req
          exact ⟨s1, h1, fun h2 => by rw [hfin] at h2; cases h2⟩
        · obtain ⟨s1, h1, -⟩ := follows_refusal t.OnRetry.isSome t.Backoff.isSome _
            (Or.inr rfl) _ _ _ _ _ req
          exact ⟨s1, h1, fun h2 => by rw [hfin] at h2; cases h2⟩
    | none =>
      have htr := tries_trace_of_loop t fuel req w hbody
      obtain ⟨hfin, -⟩ := tries_finished_of_loop t fuel req w hbody
      cases fuel with
      | zero =>
        rw [tries_running_of_loop t 0 req w hbody (start req w) rfl]
        show ∃ s, follows t.OnRetry.isSome t.Backoff.isSome Stage.entered (start req w).trace =
            some s ∧ _
        rcases follows_start t.OnRetry.isSome t.Backoff.isSome req w with h | h
        · exact ⟨_, h, fun _ => Or.inl rfl⟩
        · exact ⟨_, h, fun _ => Or.inr rfl⟩
      | succ fuel =>
        have key : (tries t (fuel + 1) req w).finished = true ∧
            (tries t (fuel + 1) req w).trace =
            (start req w).trace ++
              ([Event.roundTrip (start req w).try_ (installBody (origOf req) (start req w).req)
                (outcomeAt t (origOf req) (start req w)).1
                (outcomeAt t (origOf req) (start req w)).2] ++ deferredEvents req) := by
          rw [htr, hfin]
          rcases loop_shape_nil t hf (origOf req) fuel (start req w) with ⟨-, h⟩ | ⟨-, h⟩ <;>
            rw [h] <;>
            simp [Exec.finished, Exec.trace, Exec.machine, attempt_trace, outcomeAt]
        rw [key.2, follows_append]
        rcases follows_start t.OnRetry.isSome t.Backoff.isSome req w with h | h <;> rw [h]
        · obtain ⟨s1, h1, -⟩ := follows_last_attempt t.OnRetry.isSome t.Backoff.isSome _
            (Or.inl rfl) _ _ _ _ req
          exact ⟨s1, h1, fun h2 => by rw [key.1] at h2; cases h2⟩
        · obtain ⟨s1, h1, -⟩ := follows_last_attempt t.OnRetry.isSome t.Backoff.isSome _
            (Or.inr rfl) _ _ _ _ req
          exact ⟨s1, h1, fun h2 => by rw [key.1] at h2; cases h2⟩
  · obtain ⟨-, -, -, -, -, -, htr⟩ := tries_trace_body_err t fuel req w hbody
    rw [htr]
    have hfin : (tries t fuel req w).finished = true := by
      unfold bufferingSucceeds at hbody
      cases hb : req.Body with
      | none => rw [hb] at hbody; exact absurd trivial hbody
      | some body =>
        rw [hb] at hbody
        cases herr : (ReadAll body).2 with
        | none => exact absurd herr hbody
        | some e => rw [tries_body_err t fuel req w body e hb herr]; rfl
    rcases follows_start t.OnRetry.isSome t.Backoff.isSome req w with h | h
    · exact ⟨_, h, fun h2 => by rw [hfin] at h2; cases h2⟩
    · exact ⟨_, h, fun h2 => by rw [hfin] at h2; cases h2⟩

theorem tries_events_in_order_witness :
    ∃ s, follows (sampleTransport 3 (by decide) 5).OnRetry.isSome
        (sampleTransport 3 (by decide) 5).Backoff.isSome Stage.entered
        (tries (sampleTransport 3 (by decide) 5) 3 samplePost 0).trace = some s ∧
      ((tries (sampleTransport 3 (by decide) 5) 3 samplePost 0).finished = false →
        s = Stage.entered ∨ s = Stage.ready) :=
  tries_events_in_order (sampleTransport 3 (by decide) 5) 3 samplePost 0

end Retry
